import Mathlib

/-!
Verification development for the api-doc-generator-service static-analysis core.
The Go sources (struct analyzer, handler analyzer, service analyzer, route
extractor, OpenAPI assembler) are shallowly embedded as executable Lean
definitions; theorems below settle the frozen claims about them.
-/

/-- Association-list map with Go map semantics: insert overwrites in place,
new keys are appended. -/
def mapInsert {α : Type} (m : List (String × α)) (k : String) (v : α) : List (String × α) :=
  match m with
  | [] => [(k, v)]
  | (k', v') :: rest => if k' = k then (k, v) :: rest else (k', v') :: mapInsert rest k v

/-- Lookup in an association-list map (first match wins). -/
def mapLookup {α : Type} (m : List (String × α)) (k : String) : Option α :=
  match m with
  | [] => none
  | (k', v') :: rest => if k' = k then some v' else mapLookup rest k

theorem mapLookup_insert_self {α : Type} (m : List (String × α)) (k : String) (v : α) :
    mapLookup (mapInsert m k v) k = some v := by
  induction m with
  | nil => simp [mapInsert, mapLookup]
  | cons hd tl ih =>
    obtain ⟨k', v'⟩ := hd
    by_cases h : k' = k <;> simp [mapInsert, mapLookup, h, ih]

theorem mapLookup_insert_ne {α : Type} (m : List (String × α)) (k k' : String) (v : α)
    (h : k' ≠ k) : mapLookup (mapInsert m k v) k' = mapLookup m k' := by
  induction m with
  | nil => simp [mapInsert, mapLookup, Ne.symm h]
  | cons hd tl ih =>
    obtain ⟨k'', v''⟩ := hd
    simp only [mapInsert]
    by_cases h2 : k'' = k
    · subst h2
      simp [mapLookup, Ne.symm h]
    · simp [mapLookup, h2, ih]

/-- Structural list indexing (Go slice access s[i] guarded by i < len(s)). -/
def listGet? {α : Type} : List α → Nat → Option α
  | [], _ => none
  | x :: _, 0 => some x
  | _ :: xs, n + 1 => listGet? xs n

/-- Go: membership test loop over a string slice (used by appendUnique and
the required-field dedup loop). -/
def listHasStr (l : List String) (x : String) : Bool :=
  match l with
  | [] => false
  | y :: rest => if y = x then true else listHasStr rest x

theorem listHasStr_iff_mem (l : List String) (x : String) :
    listHasStr l x = true ↔ x ∈ l := by
  induction l with
  | nil => simp [listHasStr]
  | cons y rest ih =>
    by_cases h : y = x
    · simp [listHasStr, h]
    · simp only [listHasStr, if_neg h, ih, List.mem_cons]
      exact ⟨Or.inr, fun hc => hc.elim (fun he => absurd he.symm h) id⟩

/-- Bytewise prefix test on character lists. -/
def chPre : List Char → List Char → Bool
  | [], _ => true
  | _ :: _, [] => false
  | p :: ps, c :: cs => if p = c then chPre ps cs else false

/-- Go strings.Contains(s, sub) on character lists: does sub occur in hay. -/
def chContains (sub hay : List Char) : Bool :=
  match hay with
  | [] => chPre sub []
  | _ :: rest => if chPre sub hay then true else chContains sub rest

/-- Go strings.HasPrefix. -/
def strHasPre (s pre : String) : Bool := chPre pre.data s.data

/-- Go strings.HasSuffix. -/
def strHasSuf (s suf : String) : Bool := chPre suf.data.reverse s.data.reverse

/-- Go strings.Contains. -/
def strContainsSub (s sub : String) : Bool := chContains sub.data s.data

/-- Drop characters belonging to the cut set from the front. -/
def dropChars (cut : List Char) (s : List Char) : List Char :=
  match s with
  | [] => []
  | c :: rest => if cut.contains c then dropChars cut rest else c :: rest

/-- Go strings.Trim(s, cutset): remove leading and trailing characters in the set. -/
def goTrim (s : String) (cut : List Char) : String :=
  ⟨((dropChars cut ((dropChars cut s.data).reverse)).reverse)⟩

/-- Go strings.TrimSpace (restricted to ASCII whitespace). -/
def goTrimSpace (s : String) : String := goTrim s [' ', '\t', '\n', '\r']

/-- Go strings.TrimPrefix. -/
def trimPre (s pre : String) : String :=
  if strHasPre s pre then ⟨s.data.drop pre.data.length⟩ else s

/-- Splitting loop of Go strings.Split for a non-empty separator c0 :: sepT.
The fuel argument (any bound ≥ the list length) only forces structural
recursion; every recursive call consumes at least one character. -/
def splitAux (c0 : Char) (sepT : List Char) : Nat → List Char → List Char → List (List Char)
  | _, [], acc => [acc.reverse]
  | 0, s, acc => [(s.reverse ++ acc).reverse]
  | fuel + 1, c :: rest, acc =>
    if c = c0 ∧ chPre sepT rest then
      acc.reverse :: splitAux c0 sepT fuel (List.drop sepT.length rest) []
    else
      splitAux c0 sepT fuel rest (c :: acc)

/-- Go strings.Split. -/
def goSplit (s sep : String) : List String :=
  match sep.data with
  | [] => [s]
  | c0 :: sepT => (splitAux c0 sepT s.data.length s.data []).map (fun l => ⟨l⟩)

/-- Go strings.Join. -/
def goJoin (l : List String) (sep : String) : String :=
  match l with
  | [] => ""
  | [x] => x
  | x :: rest => x ++ sep ++ goJoin rest sep

def isUpperAZ (c : Char) : Bool := 'A' ≤ c ∧ c ≤ 'Z'
def isLowerAZ (c : Char) : Bool := 'a' ≤ c ∧ c ≤ 'z'
def isDigit09 (c : Char) : Bool := '0' ≤ c ∧ c ≤ '9'

/-- Character class of the Go regexes' [a-zA-Z0-9_]. -/
def isWordCh (c : Char) : Bool := isLowerAZ c || isUpperAZ c || isDigit09 c || c = '_'

/-! ## Go AST fragment

Shallow embedding of the go/ast node shapes the analyzers inspect.
Function bodies are flat statement lists (the analyzers' ast.Inspect walks
are modelled by in-order folds over statements plus pre-order call
collection inside expressions). Basic-literal values keep their source
text including quotes, as go/ast does. -/

inductive GoLitKind where
  | str
  | int
  | other
deriving DecidableEq

inductive GoExpr where
  | ident (name : String)
  | selector (x : GoExpr) (sel : String)
  | star (x : GoExpr)
  | unary (x : GoExpr)
  | compositeLit (ty : Option GoExpr) (elts : List GoExpr)
  | call (fn : GoExpr) (args : List GoExpr)
  | basicLit (kind : GoLitKind) (value : String)
  | arrayType (elt : GoExpr)
  | mapType (key val : GoExpr)
  | interfaceType

inductive GoStmt where
  | assign (lhs rhs : List GoExpr)
  | varDecl (names : List String) (ty : Option GoExpr)
  | exprStmt (e : GoExpr)

/-- One struct field: an empty `names` list is an embedded/anonymous field.
The struct tag is modelled as the key → value map that reflect.StructTag.Get
reads; comment/doc lines keep their leading `//`. -/
structure GoField where
  names : List String
  ty : GoExpr
  tag : List (String × String)
  commentLines : List String
  docLines : List String

inductive GoDecl where
  | typeDecl (name : String) (fields : List GoField)
  | funcDecl (name : String) (paramTypes : List GoExpr) (resultTypes : List GoExpr)
             (body : Option (List GoStmt))

structure GoFileAst where
  decls : List GoDecl

/-- A source file as the directory walk sees it: its path plus its parsed tree. -/
structure GoSrcFile where
  path : String
  ast : GoFileAst

mutual

/-- Pre-order collection of every CallExpr node inside an expression,
mirroring ast.Inspect visiting a node before its children. -/
def collectCallsExpr : GoExpr → List GoExpr
  | .call f args => .call f args :: (collectCallsExpr f ++ collectCallsList args)
  | .selector x _ => collectCallsExpr x
  | .star x => collectCallsExpr x
  | .unary x => collectCallsExpr x
  | .compositeLit ty elts =>
      (match ty with | some t => collectCallsExpr t | none => []) ++ collectCallsList elts
  | .arrayType e => collectCallsExpr e
  | .mapType k v => collectCallsExpr k ++ collectCallsExpr v
  | _ => []

/-- Pre-order call collection over an expression list. -/
def collectCallsList : List GoExpr → List GoExpr
  | [] => []
  | e :: es => collectCallsExpr e ++ collectCallsList es

end

/-- All CallExpr nodes inside one statement, in ast.Inspect order. -/
def stmtCalls : GoStmt → List GoExpr
  | .assign lhs rhs => collectCallsList lhs ++ collectCallsList rhs
  | .varDecl _ ty => match ty with | some t => collectCallsExpr t | none => []
  | .exprStmt e => collectCallsExpr e

/-! ## OpenAPI data model (internal/openapi/spec.go) -/

inductive Schema where
  | mk (type format description ref : String)
       (properties : List (String × Schema))
       (required : List String)
       (items : Option Schema)
       (additionalProperties : Option Schema)

def Schema.type : Schema → String | .mk t _ _ _ _ _ _ _ => t
def Schema.format : Schema → String | .mk _ f _ _ _ _ _ _ => f
def Schema.description : Schema → String | .mk _ _ d _ _ _ _ _ => d
def Schema.ref : Schema → String | .mk _ _ _ r _ _ _ _ => r
def Schema.properties : Schema → List (String × Schema) | .mk _ _ _ _ ps _ _ _ => ps
def Schema.required : Schema → List String | .mk _ _ _ _ _ rq _ _ => rq
def Schema.items : Schema → Option Schema | .mk _ _ _ _ _ _ it _ => it
def Schema.additionalProperties : Schema → Option Schema | .mk _ _ _ _ _ _ _ ap => ap

/-- Schema with only the type field set, e.g. openapi.Schema\x7bType: t\x7d. -/
def typeOnlySchema (t : String) : Schema := .mk t "" "" "" [] [] none none

/-- Schema with only a $ref, e.g. openapi.Schema\x7bRef: r\x7d. -/
def refOnlySchema (r : String) : Schema := .mk "" "" "" r [] [] none none

def Schema.withDescription : Schema → String → Schema
  | .mk t f _ r ps rq it ap, d => .mk t f d r ps rq it ap

def Schema.withFormat : Schema → String → Schema
  | .mk t _ d r ps rq it ap, f => .mk t f d r ps rq it ap

def Schema.withProperties : Schema → List (String × Schema) → Schema
  | .mk t f d r _ rq it ap, ps => .mk t f d r ps rq it ap

def Schema.withRequired : Schema → List String → Schema
  | .mk t f d r ps _ it ap, rq => .mk t f d r ps rq it ap

structure Parameter where
  name : String
  inLoc : String
  description : String
  required : Bool
  schema : Schema

structure MediaType where
  schema : Schema

structure RequestBody where
  description : String
  required : Bool
  content : List (String × MediaType)

structure Response where
  description : String
  content : List (String × MediaType)

structure Operation where
  summary : String
  description : String
  tags : List String
  parameters : List Parameter
  requestBody : Option RequestBody
  responses : List (String × Response)

structure PathItem where
  get : Option Operation
  post : Option Operation
  put : Option Operation
  delete : Option Operation
  patch : Option Operation
  head : Option Operation
  options : Option Operation

def emptyPathItem : PathItem := ⟨none, none, none, none, none, none, none⟩

structure OpenapiSpec where
  openapiVersion : String
  title : String
  infoDescription : String
  version : String
  paths : List (String × PathItem)
  componentsSchemas : List (String × Schema)

/-- openapi.NewSpec. -/
def newSpec : OpenapiSpec :=
  { openapiVersion := "3.0.0", title := "API", infoDescription := "", version := "1.0.0",
    paths := [], componentsSchemas := [] }

/-- openapi.Spec.AddPath. -/
def addPath (s : OpenapiSpec) (path method : String) (op : Operation) : OpenapiSpec :=
  let item := (mapLookup s.paths path).getD emptyPathItem
  let item :=
    if method = "GET" then { item with get := some op }
    else if method = "POST" then { item with post := some op }
    else if method = "PUT" then { item with put := some op }
    else if method = "DELETE" then { item with delete := some op }
    else if method = "PATCH" then { item with patch := some op }
    else if method = "HEAD" then { item with head := some op }
    else if method = "OPTIONS" then { item with options := some op }
    else item
  { s with paths := mapInsert s.paths path item }

/-- openapi.Spec.AddSchema. -/
def addSchema (s : OpenapiSpec) (name : String) (schema : Schema) : OpenapiSpec :=
  { s with componentsSchemas := mapInsert s.componentsSchemas name schema }

/-! ## Struct analyzer (pkg/ast struct_analyzer.go) -/

/-- isExported: first character in A..Z. -/
def isExported (name : String) : Bool :=
  match name.data with
  | [] => false
  | c :: _ => isUpperAZ c

/-- toLowerCamelCase: lower-case the first character. -/
def toLowerCamelCase (s : String) : String :=
  match s.data with
  | [] => s
  | c :: rest => ⟨c.toLower :: rest⟩

/-- calculatePriority: dao/model layer 100, service layer 50, everything else 10. -/
def calculatePriority (packageName : String) : Nat :=
  if packageName = "model" ∨ packageName = "picture" ∨ packageName = "dao" ∨
     strContainsSub packageName "dao" ∨ strContainsSub packageName "model" then 100
  else if packageName = "service" ∨ strContainsSub packageName "service" then 50
  else 10

/-- extractTypeNameFromExpr: plain name of an identifier / selector / pointer type. -/
def extractTypeNameFromExpr : GoExpr → String
  | .ident n => n
  | .selector _ s => s
  | .star x => extractTypeNameFromExpr x
  | _ => ""

/-- reflect.StructTag.Get on the modelled tag map (missing key gives ""). -/
def tagGet (tag : List (String × String)) (key : String) : String :=
  (mapLookup tag key).getD ""

/-- parseJSONTag: (name, omitempty, skip). -/
def parseJSONTag (tag : List (String × String)) : String × Bool × Bool :=
  let tagValue := tagGet tag "json"
  if tagValue = "" then ("", false, false)
  else
    let parts := goSplit tagValue ","
    let name := parts.headD ""
    if name = "-" then ("", false, true)
    else (name, listHasStr (parts.drop 1) "omitempty", false)

/-- applyValidationTags: interpret the Gin binding tag rules on a field schema. -/
def applyValidationTags (tag : List (String × String)) (schema : Schema) : Schema :=
  let bindingTag := tagGet tag "binding"
  if bindingTag = "" then schema
  else
    (goSplit bindingTag ",").foldl (fun sch rule =>
      let rule := goTrimSpace rule
      if rule = "required" then sch
      else if strHasPre rule "min=" then sch
      else if strHasPre rule "max=" then sch
      else if rule = "email" then sch.withFormat "email"
      else if rule = "url" then sch.withFormat "uri"
      else if strHasPre rule "gt=" then
        if sch.description = "" then
          sch.withDescription ("Must be greater than " ++ trimPre rule "gt=")
        else sch
      else if strHasPre rule "gte=" then
        if sch.description = "" then
          sch.withDescription ("Must be greater than or equal to " ++ trimPre rule "gte=")
        else sch
      else sch) schema

/-- StructAnalyzer state: schemas, provenance priorities, embedded-field index. -/
structure StructAnalyzer where
  structs : List (String × Schema)
  structPriority : List (String × Nat)
  embeddedFields : List (String × List String)

def newStructAnalyzer : StructAnalyzer := ⟨[], [], []⟩

/-- identToSchema: basic Go types to OpenAPI types; known custom types are
inlined by value from the current structs map, unknown ones become a $ref. -/
def identToSchema (structs : List (String × Schema)) (typeName : String) : Schema :=
  if typeName = "string" then typeOnlySchema "string"
  else if typeName = "int" ∨ typeName = "int8" ∨ typeName = "int16" ∨ typeName = "int32" ∨
          typeName = "int64" ∨ typeName = "uint" ∨ typeName = "uint8" ∨ typeName = "uint16" ∨
          typeName = "uint32" ∨ typeName = "uint64" then typeOnlySchema "integer"
  else if typeName = "float32" ∨ typeName = "float64" then typeOnlySchema "number"
  else if typeName = "bool" then typeOnlySchema "boolean"
  else
    match mapLookup structs typeName with
    | some schema => schema
    | none => refOnlySchema ("#/components/schemas/" ++ typeName)

/-- qualifiedTypeToSchema: time.Time is a date-time string, all else object. -/
def qualifiedTypeToSchema (qualifiedName : String) : Schema :=
  if qualifiedName = "time.Time" then (typeOnlySchema "string").withFormat "date-time"
  else typeOnlySchema "object"

/-- extractFieldSchema: field type to schema, reading the current structs map. -/
def extractFieldSchema (structs : List (String × Schema)) : GoExpr → Schema
  | .ident n => identToSchema structs n
  | .arrayType elt =>
      let itemSchema := extractFieldSchema structs elt
      Schema.mk "array" "" "" "" [] [] (some itemSchema) none
  | .star x => extractFieldSchema structs x
  | .selector (.ident x) sel => qualifiedTypeToSchema (x ++ "." ++ sel)
  | .mapType _ v =>
      let valueSchema := extractFieldSchema structs v
      Schema.mk "object" "" "" "" [] [] none (some valueSchema)
  | _ => typeOnlySchema "object"

/-- Collapse the field's comment lines as the Go code does: strip the leading
`//`, trim space, drop empties and join the rest with one space. -/
def joinCommentLines (lines : List String) : String :=
  goJoin ((lines.map (fun c => goTrimSpace (trimPre c "//"))).filter (fun t => t ≠ "")) " "

/-- Process one named struct field into (jsonName, fieldSchema, required?) if kept. -/
def processNamedField (structs : List (String × Schema)) (field : GoField)
    (fieldName : String) : Option (String × Schema × Bool) :=
  if ¬ isExported fieldName then none
  else
    let (jsonName0, omitempty, skip) := parseJSONTag field.tag
    if skip then none
    else
      let jsonName := if jsonName0 = "" then toLowerCamelCase fieldName else jsonName0
      let fieldSchema := extractFieldSchema structs field.ty
      let fieldSchema :=
        if joinCommentLines field.commentLines ≠ "" then
          fieldSchema.withDescription (joinCommentLines field.commentLines)
        else fieldSchema
      let fieldSchema :=
        if joinCommentLines field.docLines ≠ "" ∧ fieldSchema.description = "" then
          fieldSchema.withDescription (joinCommentLines field.docLines)
        else fieldSchema
      let fieldSchema := applyValidationTags field.tag fieldSchema
      let gormTag := tagGet field.tag "gorm"
      let fieldSchema :=
        if gormTag ≠ "" ∧ strContainsSub gormTag "comment:" then
          let parts := goSplit gormTag "comment:"
          if parts.length > 1 then
            let comment := goTrim ((goSplit (parts.getD 1 "") ";").headD "") ['"', Char.ofNat 39]
            if comment ≠ "" ∧ fieldSchema.description = "" then
              fieldSchema.withDescription comment
            else fieldSchema
          else fieldSchema
        else fieldSchema
      some (jsonName, fieldSchema, ¬ omitempty)

/-- extractStructSchemaWithName: build the object schema for one struct,
also recording embedded/anonymous field names for the later expansion pass.
Returns the schema together with the updated embedded-field index. -/
def extractStructSchemaWithName (structs : List (String × Schema))
    (embedded : List (String × List String)) (structName : String)
    (fields : List GoField) : Schema × List (String × List String) :=
  fields.foldl (fun (acc : Schema × List (String × List String)) field =>
    let (schema, emb) := acc
    match field.names with
    | [] =>
        let embeddedTypeName := extractTypeNameFromExpr field.ty
        if embeddedTypeName ≠ "" then
          (schema, mapInsert emb structName ((mapLookup emb structName).getD [] ++ [embeddedTypeName]))
        else (schema, emb)
    | fieldName :: _ =>
        match processNamedField structs field fieldName with
        | none => (schema, emb)
        | some (jsonName, fieldSchema, req) =>
            let schema := if req then schema.withRequired (schema.required ++ [jsonName]) else schema
            (schema.withProperties (mapInsert schema.properties jsonName fieldSchema), emb))
    (Schema.mk "object" "" "" "" [] [] none none, embedded)

/-- One TypeSpec step of AnalyzeFileWithPackage: extract the schema, then store
it only when the new priority is ≥ the stored one (or the name is new). -/
def processTypeSpec (sa : StructAnalyzer) (packageName typeName : String)
    (fields : List GoField) : StructAnalyzer :=
  let (schema, emb) := extractStructSchemaWithName sa.structs sa.embeddedFields typeName fields
  let sa := { sa with embeddedFields := emb }
  let priority := calculatePriority packageName
  match mapLookup sa.structPriority typeName with
  | none =>
      { sa with structs := mapInsert sa.structs typeName schema,
                structPriority := mapInsert sa.structPriority typeName priority }
  | some existingPriority =>
      if priority ≥ existingPriority then
        { sa with structs := mapInsert sa.structs typeName schema,
                  structPriority := mapInsert sa.structPriority typeName priority }
      else sa

/-- StructAnalyzer.AnalyzeFileWithPackage over every struct TypeSpec of a file. -/
def analyzeFileWithPackage (sa : StructAnalyzer) (packageName : String)
    (file : GoFileAst) : StructAnalyzer :=
  file.decls.foldl (fun sa d =>
    match d with
    | .typeDecl name fields => processTypeSpec sa packageName name fields
    | _ => sa) sa

/-! ## Handler analyzer (pkg/ast handler_analyzer.go) -/

/-- ServiceCall: Package / Function / Variable of a recorded service call. -/
structure ServiceCall where
  pkg : String
  fn : String
  varName : String

structure HandlerInfo where
  name : String
  requestType : String
  responseType : String
  queryParams : List String
  pathParams : List String
  serviceCalls : List ServiceCall

/-- appendUnique: append a string if it is not already present. -/
def appendUnique (slice : List String) (item : String) : List String :=
  if listHasStr slice item then slice else slice ++ [item]

/-- extractTypeFromUnaryExpr: type name from &Type\x7b\x7d or &var. -/
def extractTypeFromUnaryExpr (expr : GoExpr) : String :=
  match expr with
  | .unary (.ident n) => n
  | .unary (.compositeLit ty _) =>
      (match ty with
       | some (.ident n) => n
       | some (.selector _ s) => s
       | some (.mapType _ _) => "map[string]interface\x7b\x7d"
       | _ => "")
  | _ => ""

/-- extractTypeFromExpr: best-effort type name from an expression
(identifiers yield their own name; map types yield the generic map name). -/
def extractTypeFromExpr : GoExpr → String
  | .ident n => n
  | .selector _ s => s
  | .compositeLit ty _ =>
      (match ty with
       | some t => extractTypeFromExpr t
       | none => "")
  | .unary x => extractTypeFromUnaryExpr (.unary x)
  | .mapType _ _ => "map[string]interface\x7b\x7d"
  | _ => ""

/-- First pass of analyzeHandlerBody: collect local variable types and
service-call records from assignments and typed var declarations. -/
def handlerPass1Stmt (acc : List (String × String) × List ServiceCall) (stmt : GoStmt) :
    List (String × String) × List ServiceCall :=
  match stmt with
  | .assign lhs rhs =>
      lhs.enum.foldl (fun acc (il : Nat × GoExpr) =>
        let (i, l) := il
        match l with
        | .ident name =>
            (match listGet? rhs i with
             | none => acc
             | some r =>
                 let (vt, sc) := acc
                 let typeName := extractTypeFromExpr r
                 let vt := if typeName ≠ "" then mapInsert vt name typeName else vt
                 match r with
                 | .call (.selector (.ident x) selName) _ =>
                     (mapInsert vt name (x ++ "." ++ selName ++ ".result"),
                      sc ++ [⟨x, selName, name⟩])
                 | _ => (vt, sc))
        | _ => acc) acc
  | .varDecl names ty =>
      (match ty with
       | none => acc
       | some t0 =>
           let typeName := extractTypeFromExpr t0
           let typeName :=
             if strContainsSub typeName "." then (goSplit typeName ".").getLastD ""
             else typeName
           (names.foldl (fun vt n => mapInsert vt n typeName) acc.1, acc.2))
  | .exprStmt _ => acc

/-- Second pass of analyzeHandlerBody: one method-call site. -/
def handlerPass2Call (varTypes : List (String × String)) (info : HandlerInfo)
    (callExpr : GoExpr) : HandlerInfo :=
  match callExpr with
  | .call (.selector _ selName) args =>
      if selName = "ShouldBindJSON" ∨ selName = "BindJSON" ∨ selName = "ShouldBind" ∨
         selName = "Bind" ∨ selName = "ShouldBindQuery" then
        if args.length > 0 ∧ info.requestType = "" then
          let fromVar : Option String :=
            match listGet? args 0 with
            | some (GoExpr.unary (GoExpr.ident nm)) =>
                (match mapLookup varTypes nm with
                 | some v => if v ≠ "" then some v else none
                 | none => none)
            | _ => none
          match fromVar with
          | some v => { info with requestType := v }
          | none =>
              let reqType := ((listGet? args 0).map extractTypeFromUnaryExpr).getD ""
              if reqType ≠ "" then { info with requestType := reqType } else info
        else info
      else if selName = "JSON" then
        if args.length > 1 then
          let a1 := listGet? args 1
          let respType := (a1.map extractTypeFromExpr).getD ""
          let respType :=
            if respType = "" then
              match a1 with
              | some (.ident nm) => (mapLookup varTypes nm).getD ""
              | _ => ""
            else respType
          if respType ≠ "" ∧ info.responseType = "" then
            { info with responseType := respType }
          else info
        else info
      else if selName = "SetResponseOK" ∨ selName = "Success" ∨ selName = "OK" then
        if args.length > 1 then
          match listGet? args 1 with
          | some (GoExpr.ident nm) =>
              (match mapLookup varTypes nm with
               | some varType =>
                   if strContainsSub varType ".result" then
                     { info with responseType := nm ++ ".service" }
                   else if varType ≠ "" then { info with responseType := varType }
                   else info
               | none => { info with responseType := nm })
          | some other =>
              let respType := extractTypeFromExpr other
              if respType ≠ "" then { info with responseType := respType } else info
          | none => info
        else info
      else if selName = "Query" ∨ selName = "DefaultQuery" then
        match listGet? args 0 with
        | some (GoExpr.basicLit GoLitKind.str v) =>
            { info with queryParams := appendUnique info.queryParams (goTrim v ['"']) }
        | _ => info
      else if selName = "Param" then
        match listGet? args 0 with
        | some (GoExpr.basicLit GoLitKind.str v) =>
            { info with pathParams := appendUnique info.pathParams (goTrim v ['"']) }
        | _ => info
      else info
  | _ => info

/-- analyzeHandlerBody: variable-binding pass then call-site pass. -/
def analyzeHandlerBody (body : List GoStmt) (info : HandlerInfo) : HandlerInfo :=
  let (varTypes, serviceCalls) := body.foldl handlerPass1Stmt ([], [])
  let info := { info with serviceCalls := serviceCalls }
  (body.flatMap stmtCalls).foldl (handlerPass2Call varTypes) info

/-- isGinHandler: some parameter has type *gin.Context. -/
def isGinHandler (paramTypes : List GoExpr) : Bool :=
  paramTypes.any (fun p =>
    match p with
    | .star (.selector (.ident x) sel) => x = "gin" ∧ sel = "Context"
    | _ => false)

/-- AnalyzeHandlers: HandlerInfo for every Gin handler function of a file. -/
def analyzeHandlers (file : GoFileAst) : List (String × HandlerInfo) :=
  file.decls.foldl (fun handlers d =>
    match d with
    | .funcDecl name params _ body =>
        if isGinHandler params then
          let info : HandlerInfo := ⟨name, "", "", [], [], []⟩
          let info := match body with
                      | some b => analyzeHandlerBody b info
                      | none => info
          mapInsert handlers name info
        else handlers
    | _ => handlers) []

/-! ## Service analyzer (pkg/ast service_analyzer.go) -/

structure ServiceFuncInfo where
  pkg : String
  name : String
  returnType : String
  dataType : String

/-- cleanTypeName: strip any package qualifier, keeping the last dot part. -/
def cleanTypeName (typeName : String) : String :=
  let parts := goSplit typeName "."
  if parts.length > 1 then parts.getLastD "" else typeName

/-- extractDetailedTypeName: type names including array/pointer/map shape. -/
def extractDetailedTypeName : GoExpr → String
  | .ident n => n
  | .selector _ s => s
  | .arrayType elt => "[]" ++ extractDetailedTypeName elt
  | .star x => extractDetailedTypeName x
  | .mapType k v => "map[" ++ extractDetailedTypeName k ++ "]" ++ extractDetailedTypeName v
  | .interfaceType => "interface\x7b\x7d"
  | _ => ""

/-- extractTypeFromAssignment: type name from the RHS of a `data = ...`. -/
def extractTypeFromAssignment : GoExpr → String
  | .compositeLit ty _ =>
      cleanTypeName (match ty with | some t => extractTypeNameFromExpr t | none => "")
  | .call (.ident fn) args =>
      if fn = "make" ∧ args.length > 0 then
        cleanTypeName (((listGet? args 0).map extractTypeNameFromExpr).getD "")
      else ""
  | .call _ _ => ""
  | .unary x => cleanTypeName (extractTypeNameFromExpr x)
  | .ident n => n
  | _ => ""

/-- The generic-map sentinel the analyzers treat as an unusable type. -/
def genericMapType : String := "map[string]interface\x7b\x7d"

/-- One `data` assignment entry of the inferDataTypeFromBody scan, over the
pair (inferredType, lastDataType). -/
def inferAssignEntry (rhs : List GoExpr) (acc : String × String) (il : Nat × GoExpr) :
    String × String :=
  match il.2 with
  | .ident nm =>
      if nm = "data" then
        match listGet? rhs il.1 with
        | none => acc
        | some r =>
            let typeName := extractTypeFromAssignment r
            if typeName ≠ "" then
              (if typeName ≠ genericMapType then typeName else acc.1, typeName)
            else acc
      else acc
  | _ => acc

/-- One `var data T` declaration entry of the inferDataTypeFromBody scan. -/
def inferVarDeclEntry (ty : Option GoExpr) (acc : String × String) (nm : String) :
    String × String :=
  if nm = "data" then
    match ty with
    | none => acc
    | some t0 =>
        let typeName := extractDetailedTypeName t0
        if typeName ≠ "" then
          (if typeName ≠ genericMapType ∧ typeName ≠ "interface\x7b\x7d" then typeName
           else acc.1,
           typeName)
        else acc
  else acc

/-- One statement step of inferDataTypeFromBody over the pair
(inferredType, lastDataType). -/
def inferStep (acc : String × String) (stmt : GoStmt) : String × String :=
  match stmt with
  | .assign lhs rhs => lhs.enum.foldl (inferAssignEntry rhs) acc
  | .varDecl names ty => names.foldl (inferVarDeclEntry ty) acc
  | .exprStmt _ => acc

/-- inferDataTypeFromBody: scan `data` bindings; the inferred concrete type if
one was seen, otherwise the last candidate of any kind. -/
def inferDataTypeFromBody (body : List GoStmt) : String :=
  let (inferredType, lastDataType) := body.foldl inferStep ("", "")
  if inferredType = "" ∧ lastDataType ≠ "" then lastDataType else inferredType

/-- analyzServiceFunc: declared return type (first non-error result) plus the
inferred data type from the body. -/
def analyzServiceFunc (packageName funcName : String) (resultTypes : List GoExpr)
    (body : Option (List GoStmt)) : ServiceFuncInfo :=
  let returnType :=
    (resultTypes.map extractTypeNameFromExpr).foldl
      (fun acc t => if acc = "" ∧ t ≠ "" ∧ t ≠ "error" then t else acc) ""
  let dataType := match body with
                  | some b => inferDataTypeFromBody b
                  | none => ""
  ⟨packageName, funcName, returnType, dataType⟩

/-- ServiceAnalyzer.AnalyzeFile: record every exported function of the file
under the key package.FuncName. -/
def serviceAnalyzeFile (functions : List (String × ServiceFuncInfo)) (packageName : String)
    (file : GoFileAst) : List (String × ServiceFuncInfo) :=
  file.decls.foldl (fun fns d =>
    match d with
    | .funcDecl name _ results body =>
        if isExported name then
          mapInsert fns (packageName ++ "." ++ name)
            (analyzServiceFunc packageName name results body)
        else fns
    | _ => fns) functions

/-! ## Route extractor and document assembler (pkg/ast route_extractor.go) -/

structure RouteInfo where
  method : String
  path : String
  handler : String
  hasBody : Bool
  hasParam : Bool
  groupPrefix : String
  requestType : String
  responseType : String

def curlyOpen : Char := Char.ofNat 123
def curlyClose : Char := Char.ofNat 125

theorem length_dropWhile_le (p : Char → Bool) (l : List Char) :
    (List.dropWhile p l).length ≤ l.length := by
  induction l with
  | nil => simp
  | cons c rest ih =>
    by_cases h : p c
    · simp only [List.dropWhile_cons, h, if_true]
      exact Nat.le_succ_of_le ih
    · simp [List.dropWhile_cons, h]

/-- Character-level rendering of the regex replacement :name → \x7bname\x7d
performed by convertGinPathToOpenAPI. The fuel argument (any bound ≥ the list
length) only forces structural recursion. -/
def convChars : Nat → List Char → List Char
  | _, [] => []
  | 0, s => s
  | fuel + 1, c :: rest =>
    if c = ':' then
      let run := rest.takeWhile isWordCh
      if run = [] then ':' :: convChars fuel rest
      else (curlyOpen :: run) ++ (curlyClose :: convChars fuel (rest.dropWhile isWordCh))
    else c :: convChars fuel rest

/-- convertGinPathToOpenAPI: Gin :param segments become braced parameters. -/
def convertGinPathToOpenAPI (ginPath : String) : String :=
  ⟨convChars ginPath.data.length ginPath.data⟩

/-- parseGinRouteCall: recognize r.METHOD("/path", handler, ...) and build a
RouteInfo using the group prefix bound to the receiver variable. -/
def parseGinRouteCall (callExpr : GoExpr) (groupPrefixes : List (String × String)) :
    Option RouteInfo :=
  match callExpr with
  | .call (.selector recv method) args =>
      if ¬ (method = "GET" ∨ method = "POST" ∨ method = "PUT" ∨ method = "DELETE" ∨
            method = "PATCH" ∨ method = "HEAD" ∨ method = "OPTIONS") then none
      else if args.length < 2 then none
      else
        match listGet? args 0 with
        | some (GoExpr.basicLit GoLitKind.str v) =>
            let path := goTrim v ['"']
            let groupPrefix :=
              match recv with
              | .ident nm => (mapLookup groupPrefixes nm).getD ""
              | _ => ""
            let fullPath := groupPrefix ++ path
            let fullPath := if fullPath = "" then "/" else fullPath
            let handler :=
              match listGet? args 1 with
              | some (GoExpr.ident n) => n
              | some (GoExpr.selector _ s) => s
              | _ => "handler"
            some { method := method,
                   path := convertGinPathToOpenAPI fullPath,
                   handler := handler,
                   hasBody := method = "POST" ∨ method = "PUT" ∨ method = "PATCH",
                   hasParam := strContainsSub path ":",
                   groupPrefix := groupPrefix,
                   requestType := "",
                   responseType := "" }
        | _ => none
  | _ => none

/-- Group-binding step: record prefixes from statements of the form
v := parent.Group("/p"). -/
def groupBindStmt (groupPrefixes : List (String × String)) (stmt : GoStmt) :
    List (String × String) :=
  match stmt with
  | .assign lhs rhs =>
      lhs.enum.foldl (fun gp (il : Nat × GoExpr) =>
        let (i, l) := il
        match l with
        | .ident nm =>
            (match listGet? rhs i with
             | some (GoExpr.call (GoExpr.selector sx "Group") args) =>
                 (match listGet? args 0 with
                  | some (GoExpr.basicLit _ v) =>
                      let newPrefix := goTrim v ['"']
                      (match sx with
                       | .ident parent =>
                           mapInsert gp nm ((mapLookup gp parent).getD "" ++ newPrefix)
                       | _ => mapInsert gp nm newPrefix)
                  | _ => gp)
             | _ => gp)
        | _ => gp) groupPrefixes
  | _ => groupPrefixes

/-- extractRoutesFromFunc: walk one function body in order, tracking group
prefixes in the function's local scope and collecting route registrations. -/
def extractRoutesFromFunc (body : List GoStmt) : List RouteInfo :=
  (body.foldl (fun (acc : List (String × String) × List RouteInfo) stmt =>
    let gp := groupBindStmt acc.1 stmt
    let routes := (stmtCalls stmt).foldl (fun rs c =>
      match parseGinRouteCall c gp with
      | some r => rs ++ [r]
      | none => rs) acc.2
    (gp, routes)) ([], [])).2

/-- ExtractGinRoutes: routes of all function bodies of a file. -/
def extractGinRoutes (file : GoFileAst) : List RouteInfo :=
  file.decls.foldl (fun routes d =>
    match d with
    | .funcDecl _ _ _ (some body) => routes ++ extractRoutesFromFunc body
    | _ => routes) []

/-- formatHandlerName: space before every capital letter, then trim. -/
def formatHandlerName (name : String) : String :=
  goTrimSpace ⟨name.data.flatMap (fun c => if isUpperAZ c then [' ', c] else [c])⟩

/-- Version segment pattern of the Go regex v[0-9]+. -/
def isVersionSeg (s : String) : Bool :=
  match s.data with
  | 'v' :: ds => ds ≠ [] ∧ ds.all isDigit09
  | _ => false

/-- ASCII rendering of strings.Title: capitalize letters that begin a word. -/
def titleChars (prevLetter : Bool) : List Char → List Char
  | [] => []
  | c :: rest =>
      let isL := isLowerAZ c || isUpperAZ c
      (if isL ∧ ¬ prevLetter then c.toUpper else c) :: titleChars isL rest

def goTitle (s : String) : String := ⟨titleChars false s.data⟩

/-- Resource-segment selection loop of extractTags. -/
def tagLoop : List String → String
  | [] => ""
  | p :: rest =>
      if p = "api" ∨ p = "imagine_hub" ∨ p = "app" ∨ isVersionSeg p then tagLoop rest
      else if ¬ strHasPre p "\x7b" then p
      else tagLoop rest

/-- extractTags: first meaningful path segment, capitalized; Default otherwise. -/
def extractTags (path : String) : List String :=
  let resourcePart := tagLoop (goSplit (goTrim path ['/']) "/")
  if resourcePart ≠ "" then [goTitle resourcePart] else ["Default"]

/-- Scan for \x7bname\x7d occurrences, as the extractPathParameters regex does.
The fuel argument (any bound ≥ the list length) only forces structural
recursion. -/
def findParams : Nat → List Char → List String
  | _, [] => []
  | 0, _ => []
  | fuel + 1, c :: rest =>
    if c = curlyOpen then
      let run := rest.takeWhile isWordCh
      match rest.dropWhile isWordCh with
      | d :: tail =>
          if d = curlyClose ∧ run ≠ [] then (⟨run⟩ : String) :: findParams fuel tail
          else findParams fuel rest
      | [] => findParams fuel rest
    else findParams fuel rest

/-- extractPathParameters: one path parameter per braced placeholder. -/
def extractPathParameters (path : String) : List Parameter :=
  (findParams path.data.length path.data).map (fun nm =>
    { name := nm, inLoc := "path", description := "", required := true,
      schema := typeOnlySchema "string" })

/-- buildDataSchema: schema for a resolved response type name. -/
def buildDataSchema (typeName : String) : Schema :=
  if strHasPre typeName "[]" then
    Schema.mk "array" "" "" "" [] []
      (some (refOnlySchema ("#/components/schemas/" ++ trimPre typeName "[]"))) none
  else if strHasPre typeName "map[" then
    Schema.mk "object" "" "" "" [] [] none (some (typeOnlySchema "object"))
  else if typeName = "interface\x7b\x7d" then typeOnlySchema "object"
  else refOnlySchema ("#/components/schemas/" ++ typeName)

/-- RouteInfo.ToOperation. -/
def toOperation (r : RouteInfo) : Operation :=
  let parameters := if r.hasParam then extractPathParameters r.path else []
  let requestBody :=
    if r.hasBody then
      let requestSchema :=
        if r.requestType ≠ "" then refOnlySchema ("#/components/schemas/" ++ r.requestType)
        else typeOnlySchema "object"
      some { description := "", required := true,
             content := [("application/json", ⟨requestSchema⟩)] }
    else none
  let dataSchema :=
    if r.responseType ≠ "" then buildDataSchema r.responseType
    else typeOnlySchema "object"
  let responseSchema : Schema :=
    Schema.mk "object" "" "" ""
      [("code", (typeOnlySchema "integer").withDescription "响应状态码，0表示成功"),
       ("message", (typeOnlySchema "string").withDescription "响应消息"),
       ("data", dataSchema)] [] none none
  { summary := formatHandlerName r.handler,
    description := "",
    tags := extractTags r.path,
    parameters := parameters,
    requestBody := requestBody,
    responses :=
      [("200", { description := "Successful response",
                 content := [("application/json", ⟨responseSchema⟩)] }),
       ("400", { description := "Bad request", content := [] }),
       ("404", { description := "Not found", content := [] }),
       ("500", { description := "Internal server error", content := [] })] }

/-! ## Embedded-field expansion pass (StructAnalyzer.ExpandEmbeddedFields) -/

/-- Merge one embedded schema into an owner schema: copy properties the owner
lacks, append required names the owner lacks. -/
def mergeEmbedded (ownerSchema embeddedSchema : Schema) : Schema :=
  let props := embeddedSchema.properties.foldl (fun ps (p : String × Schema) =>
    match mapLookup ps p.1 with
    | some _ => ps
    | none => mapInsert ps p.1 p.2) ownerSchema.properties
  let req := embeddedSchema.required.foldl (fun rs r =>
    if listHasStr rs r then rs else rs ++ [r]) ownerSchema.required
  (ownerSchema.withProperties props).withRequired req

/-- Expand one (owner, embedded-type) combination in the structs map. -/
def expandOneEmb (structs : List (String × Schema)) (owner emb : String) :
    List (String × Schema) :=
  match mapLookup structs emb, mapLookup structs owner with
  | some es, some os => mapInsert structs owner (mergeEmbedded os es)
  | _, _ => structs

/-- Expand all embedded types of one owner (skipped when the owner schema
does not exist). -/
def expandOwner (structs : List (String × Schema)) (owner : String)
    (embs : List String) : List (String × Schema) :=
  match mapLookup structs owner with
  | none => structs
  | some _ => embs.foldl (fun m e => expandOneEmb m owner e) structs

/-- ExpandEmbeddedFields over the recorded (owner, embedded list) pairs in the
given iteration order (Go iterates a map here, so the order is arbitrary). -/
def expandAll (pairs : List (String × List String)) (structs : List (String × Schema)) :
    List (String × Schema) :=
  pairs.foldl (fun m p => expandOwner m p.1 p.2) structs

/-! ## Gin parser pipeline (internal/parser/gin/gin_parser.go) -/

/-- The file filter of both walk passes. -/
def shouldSkipFile (path : String) : Bool :=
  ¬ strHasSuf path ".go" ∨ strHasSuf path "_test.go" ∨
  strContainsSub path "/vendor/" ∨ strContainsSub path "/tools/" ∨
  strContainsSub path "/.git/"

/-- extractPackageNameFromPath: last path segment that is not a .go file name. -/
def extractPackageNameFromPath (path : String) : String :=
  (((goSplit path "/").reverse).find? (fun p => p ≠ "" ∧ ¬ strHasSuf p ".go")).getD ""

/-- The package segment immediately after a "service" path segment. -/
def findServicePkg : List String → Option String
  | [] => none
  | p :: rest =>
      match rest with
      | next :: _ => if p = "service" then some next else findServicePkg rest
      | [] => none

structure AnalyzersState where
  structAnalyzer : StructAnalyzer
  serviceFuncs : List (String × ServiceFuncInfo)
  handlerMap : List (String × HandlerInfo)

/-- First walk pass of GinParser.Analyze for one file: structs, service
functions, handlers. -/
def pass1File (st : AnalyzersState) (f : GoSrcFile) : AnalyzersState :=
  if shouldSkipFile f.path then st
  else
    let packageName := extractPackageNameFromPath f.path
    let sa := analyzeFileWithPackage st.structAnalyzer packageName f.ast
    let sf :=
      if strContainsSub f.path "/service/" then
        match findServicePkg (goSplit f.path "/") with
        | some spkg => serviceAnalyzeFile st.serviceFuncs spkg f.ast
        | none => st.serviceFuncs
      else st.serviceFuncs
    let hm := (analyzeHandlers f.ast).foldl
      (fun m (nh : String × HandlerInfo) => mapInsert m nh.1 nh.2) st.handlerMap
    ⟨sa, sf, hm⟩

/-- inferResponseTypeFromServiceCalls: resolve the first service call bound to
the variable "data": prefer the inferred data type (rejecting the generic map),
then the declared return type (rejecting interface\x7b\x7d), else keep looking. -/
def inferResponseTypeFromServiceCalls (serviceCalls : List ServiceCall)
    (functions : List (String × ServiceFuncInfo)) : String :=
  match serviceCalls with
  | [] => ""
  | c :: rest =>
      if c.varName ≠ "data" then inferResponseTypeFromServiceCalls rest functions
      else
        match mapLookup functions (c.pkg ++ "." ++ c.fn) with
        | none => inferResponseTypeFromServiceCalls rest functions
        | some serviceInfo =>
            if serviceInfo.dataType ≠ "" ∧ serviceInfo.dataType ≠ genericMapType then
              serviceInfo.dataType
            else if serviceInfo.returnType ≠ "" ∧ serviceInfo.returnType ≠ "interface\x7b\x7d" then
              serviceInfo.returnType
            else inferResponseTypeFromServiceCalls rest functions

/-- Route linking step of the second walk pass: copy the handler's
request/response types onto the route, then override the response type with
the service-call inference when it produces a non-empty name. -/
def linkRoute (handlerMap : List (String × HandlerInfo))
    (serviceFuncs : List (String × ServiceFuncInfo)) (route : RouteInfo) : RouteInfo :=
  match mapLookup handlerMap route.handler with
  | none => route
  | some handlerInfo =>
      let route := { route with requestType := handlerInfo.requestType,
                                responseType := handlerInfo.responseType }
      let inferredType := inferResponseTypeFromServiceCalls handlerInfo.serviceCalls serviceFuncs
      if inferredType ≠ "" then { route with responseType := inferredType } else route

/-- Second walk pass of GinParser.Analyze for one file: extract, link and add
every route. -/
def pass2File (handlerMap : List (String × HandlerInfo))
    (serviceFuncs : List (String × ServiceFuncInfo)) (spec : OpenapiSpec)
    (f : GoSrcFile) : OpenapiSpec :=
  if shouldSkipFile f.path then spec
  else
    (extractGinRoutes f.ast).foldl (fun sp route =>
      let r := linkRoute handlerMap serviceFuncs route
      addPath sp r.path r.method (toOperation r)) spec

/-- The fixed ApiResponse envelope schema added after all struct schemas. -/
def apiResponseSchema : Schema :=
  Schema.mk "object" "" "" ""
    [("code", (typeOnlySchema "integer").withDescription "响应状态码"),
     ("message", (typeOnlySchema "string").withDescription "响应消息"),
     ("data", (typeOnlySchema "object").withDescription "响应数据")] [] none none

/-- GinParser.Analyze over an ordered file list (the deterministic
filepath.Walk order); the embedded-field expansion iterates the recorded
(owner, embedded) map in its stored order. -/
def ginAnalyze (files : List GoSrcFile) : OpenapiSpec :=
  let st := files.foldl pass1File ⟨newStructAnalyzer, [], []⟩
  let structs := expandAll st.structAnalyzer.embeddedFields st.structAnalyzer.structs
  let spec := { newSpec with title := "Auto-Generated API Documentation",
                             infoDescription := "Generated from code analysis",
                             version := "1.0.0" }
  let spec := structs.foldl (fun sp (ns : String × Schema) => addSchema sp ns.1 ns.2) spec
  let spec := addSchema spec "ApiResponse" apiResponseSchema
  files.foldl (pass2File st.handlerMap st.serviceFuncs) spec

/-! ## Statement helpers -/

/-- Projection used in statements: the data-payload schema inside an
operation's 200 success envelope. -/
def opSuccessDataSchema (op : Operation) : Option Schema :=
  ((mapLookup op.responses "200").bind
    (fun r => (mapLookup r.content "application/json").map (fun mt => mt.schema))).bind
    (fun s => mapLookup s.properties "data")

/-- Projection used in statements: property name, $ref and type of each
property of a schema, in insertion order. -/
def schemaPropSig (s : Schema) : List (String × String × String) :=
  s.properties.map (fun p => (p.1, p.2.ref, p.2.type))

/-! ## Concrete scenario inputs -/

/-- A plain struct field with no tag and no comments. -/
def plainField (n : String) (t : GoExpr) : GoField := ⟨[n], t, [], [], []⟩

/-- Handler-layer file declaring `type T struct \x7b A string \x7d`. -/
def c1HandlerFile : GoFileAst := ⟨[.typeDecl "T" [plainField "A" (.ident "string")]]⟩

/-- Model-layer file declaring `type T struct \x7b Next *T \x7d`. -/
def c1ModelFile : GoFileAst := ⟨[.typeDecl "T" [plainField "Next" (.star (.ident "T"))]]⟩

def c1RunHandlerFirst : StructAnalyzer :=
  analyzeFileWithPackage (analyzeFileWithPackage newStructAnalyzer "controller" c1HandlerFile)
    "model" c1ModelFile

def c1RunModelFirst : StructAnalyzer :=
  analyzeFileWithPackage (analyzeFileWithPackage newStructAnalyzer "model" c1ModelFile)
    "controller" c1HandlerFile

/-- The model-layer extraction of T computed from a fresh analyzer state. -/
def c1CanonicalModelSchema : Schema :=
  (extractStructSchemaWithName [] [] "T" [plainField "Next" (.star (.ident "T"))]).1

/-- Handler body: var req CreateUserRequest; c.ShouldBindJSON(&req);
user := User\x7b\x7d; c.JSON(200, user). -/
def c2Body : List GoStmt := [
  .varDecl ["req"] (some (.ident "CreateUserRequest")),
  .exprStmt (.call (.selector (.ident "c") "ShouldBindJSON") [.unary (.ident "req")]),
  .assign [.ident "user"] [.compositeLit (some (.ident "User")) []],
  .exprStmt (.call (.selector (.ident "c") "JSON") [.basicLit .int "200", .ident "user"])]

def c2File : GoFileAst :=
  ⟨[.funcDecl "CreateUser" [.star (.selector (.ident "gin") "Context")] [] (some c2Body)]⟩

/-- Service body with two concrete `data` assignments:
data := LabelA\x7b\x7d; data := LabelB\x7b\x7d. -/
def c3Body : List GoStmt := [
  .assign [.ident "data"] [.compositeLit (some (.ident "LabelA")) []],
  .assign [.ident "data"] [.compositeLit (some (.ident "LabelB")) []]]

/-- Handler body: data, err := home.GetAllLabels(); tool.SetResponseOK(c, data). -/
def c4HandlerBody : List GoStmt := [
  .assign [.ident "data", .ident "err"] [.call (.selector (.ident "home") "GetAllLabels") []],
  .exprStmt (.call (.selector (.ident "tool") "SetResponseOK") [.ident "c", .ident "data"])]

def c4HandlerFile : GoSrcFile :=
  ⟨"/repo/controller/labels.go",
   ⟨[.funcDecl "GetLabels" [.star (.selector (.ident "gin") "Context")] [] (some c4HandlerBody)]⟩⟩

/-- Service file under /service/home/: GetAllLabels returns (interface\x7b\x7d, error)
and assigns data := map[string]interface\x7b\x7d\x7b\x7d. -/
def c4ServiceFile : GoSrcFile :=
  ⟨"/repo/service/home/home.go",
   ⟨[.funcDecl "GetAllLabels" [] [.interfaceType, .ident "error"]
     (some [.assign [.ident "data"]
              [.compositeLit (some (.mapType (.ident "string") .interfaceType)) []],
            .exprStmt (.ident "data")])]⟩⟩

def c4RouteFile : GoSrcFile :=
  ⟨"/repo/router/router.go",
   ⟨[.funcDecl "SetupRouter" [] [] (some [
      .exprStmt (.call (.selector (.ident "r") "GET")
        [.basicLit .str "\"/labels\"", .ident "GetLabels"])])]⟩⟩

def c4Spec : OpenapiSpec := ginAnalyze [c4HandlerFile, c4ServiceFile, c4RouteFile]

/-- The linked route of the C4 scenario, as the second walk pass builds it. -/
def c4LinkedRoute : RouteInfo :=
  let st := [c4HandlerFile, c4ServiceFile, c4RouteFile].foldl pass1File ⟨newStructAnalyzer, [], []⟩
  linkRoute st.handlerMap st.serviceFuncs ⟨"GET", "/labels", "GetLabels", false, false, "", "", ""⟩

/-- Function body: v1 := router.Group("/api/v1"); products := v1.Group("/products");
products.GET("/:id", GetProduct). -/
def c5Body : List GoStmt := [
  .assign [.ident "v1"] [.call (.selector (.ident "router") "Group") [.basicLit .str "\"/api/v1\""]],
  .assign [.ident "products"] [.call (.selector (.ident "v1") "Group") [.basicLit .str "\"/products\""]],
  .exprStmt (.call (.selector (.ident "products") "GET") [.basicLit .str "\"/:id\"", .ident "GetProduct"])]

/-- File declaring B with required field X, and A embedding B plus its own Y. -/
def c6File : GoFileAst := ⟨[
  .typeDecl "B" [plainField "X" (.ident "string")],
  .typeDecl "A" [⟨[], .ident "B", [], [], []⟩, plainField "Y" (.ident "int")]]⟩

def c6Analyzer : StructAnalyzer := analyzeFileWithPackage newStructAnalyzer "model" c6File

/-- Handler body: c.JSON(200, map[string]interface\x7b\x7d\x7b...\x7d). -/
def c7Body : List GoStmt := [
  .exprStmt (.call (.selector (.ident "c") "JSON")
    [.basicLit .int "200",
     .compositeLit (some (.mapType (.ident "string") .interfaceType)) []])]

def c7HandlerFile : GoSrcFile :=
  ⟨"/repo/controller/stats.go",
   ⟨[.funcDecl "GetStats" [.star (.selector (.ident "gin") "Context")] [] (some c7Body)]⟩⟩

def c7RouteFile : GoSrcFile :=
  ⟨"/repo/router/router.go",
   ⟨[.funcDecl "SetupRouter" [] [] (some [
      .exprStmt (.call (.selector (.ident "r") "GET")
        [.basicLit .str "\"/stats\"", .ident "GetStats"])])]⟩⟩

/-- Structs map for the embedded-expansion order scenario: A and B empty,
C carrying required property x. -/
def c8Structs : List (String × Schema) :=
  [("A", Schema.mk "object" "" "" "" [] [] none none),
   ("B", Schema.mk "object" "" "" "" [] [] none none),
   ("C", Schema.mk "object" "" "" "" [("x", typeOnlySchema "string")] ["x"] none none)]

def c8PairA : String × List String := ("A", ["B"])
def c8PairB : String × List String := ("B", ["C"])

/-- Function body: users := r.Group("/users/:id"); users.GET("/profile", h). -/
def c9Body : List GoStmt := [
  .assign [.ident "users"] [.call (.selector (.ident "r") "Group") [.basicLit .str "\"/users/:id\""]],
  .exprStmt (.call (.selector (.ident "users") "GET") [.basicLit .str "\"/profile\"", .ident "h"])]

/-! ## Candidate-sequence view of the data-type inference (for claim C3) -/

/-- Candidates contributed by one assignment entry: the non-empty type names
bound to `data`, flagged concrete when distinct from the generic map type. -/
def assignEntryCands (rhs : List GoExpr) (il : Nat × GoExpr) : List (String × Bool) :=
  match il.2 with
  | .ident nm =>
      if nm = "data" then
        match listGet? rhs il.1 with
        | none => []
        | some r =>
            let t := extractTypeFromAssignment r
            if t ≠ "" then [(t, decide (t ≠ genericMapType))] else []
      else []
  | _ => []

/-- Candidates contributed by one `var` declaration entry. -/
def varDeclEntryCands (ty : Option GoExpr) (nm : String) : List (String × Bool) :=
  if nm = "data" then
    match ty with
    | none => []
    | some t0 =>
        let t := extractDetailedTypeName t0
        if t ≠ "" then [(t, decide (t ≠ genericMapType ∧ t ≠ "interface\x7b\x7d"))] else []
  else []

/-- All `data` type candidates of one statement, in scan order. -/
def stmtDataCands : GoStmt → List (String × Bool)
  | .assign lhs rhs => lhs.enum.flatMap (assignEntryCands rhs)
  | .varDecl names ty => names.flatMap (varDeclEntryCands ty)
  | .exprStmt _ => []

/-- All `data` type candidates of a function body, in scan order. -/
def dataCands (body : List GoStmt) : List (String × Bool) := body.flatMap stmtDataCands

/-- Folding a candidate sequence into the (inferredType, lastDataType) pair. -/
def candFold (acc : String × String) (cs : List (String × Bool)) : String × String :=
  cs.foldl (fun a c => (if c.2 then c.1 else a.1, c.1)) acc

/-- Modelled from the spec (§4.3 Service-Call Resolver): "If multiple candidate
assignments occur, the first concrete (non-generic-object) type found wins; a
generic/untyped-object candidate is kept only as a fallback if no concrete type
is ever found." -/
def specFirstConcreteDataType (body : List GoStmt) : String :=
  match (dataCands body).find? (fun c => c.2) with
  | some c => c.1
  | none =>
      match (dataCands body).head? with
      | some c => c.1
      | none => ""

/-- The amended reading: the last concrete candidate wins, with the last
candidate of any kind as the fallback. -/
def specLastConcreteDataType (body : List GoStmt) : String :=
  match (dataCands body).reverse.find? (fun c => c.2) with
  | some c => c.1
  | none =>
      match (dataCands body).getLast? with
      | some c => c.1
      | none => ""

theorem inferAssignEntry_eq_candFold (rhs : List GoExpr) (acc : String × String)
    (il : Nat × GoExpr) :
    inferAssignEntry rhs acc il = candFold acc (assignEntryCands rhs il) := by
  obtain ⟨i, l⟩ := il
  cases l <;> simp only [inferAssignEntry, assignEntryCands, candFold, List.foldl]
  case ident nm =>
    by_cases hnm : nm = "data"
    · simp only [if_pos hnm]
      cases hr : listGet? rhs i with
      | none => simp [List.foldl]
      | some r =>
        simp only []
        by_cases ht : extractTypeFromAssignment r ≠ ""
        · simp [ht, List.foldl]
        · simp [ht, List.foldl]
    · simp [hnm, List.foldl]

theorem inferVarDeclEntry_eq_candFold (ty : Option GoExpr) (acc : String × String)
    (nm : String) :
    inferVarDeclEntry ty acc nm = candFold acc (varDeclEntryCands ty nm) := by
  by_cases hnm : nm = "data"
  · cases ty with
    | none => simp [inferVarDeclEntry, varDeclEntryCands, candFold, hnm, List.foldl]
    | some t0 =>
      by_cases ht : extractDetailedTypeName t0 ≠ "" <;>
        simp [inferVarDeclEntry, varDeclEntryCands, candFold, hnm, ht, List.foldl]
  · simp [inferVarDeclEntry, varDeclEntryCands, candFold, hnm, List.foldl]

theorem candFold_append (acc : String × String) (cs ds : List (String × Bool)) :
    candFold acc (cs ++ ds) = candFold (candFold acc cs) ds := by
  simp [candFold, List.foldl_append]

theorem foldl_entry_eq_candFold {β : Type}
    (f : String × String → β → String × String) (g : β → List (String × Bool))
    (hf : ∀ acc b, f acc b = candFold acc (g b)) :
    ∀ (L : List β) (acc : String × String),
      L.foldl f acc = candFold acc (L.flatMap g) := by
  intro L
  induction L with
  | nil => intro acc; simp [candFold, List.foldl]
  | cons b L ih =>
    intro acc
    simp only [List.foldl, List.flatMap_cons, candFold_append, hf, ih]

theorem inferStep_eq_candFold (acc : String × String) (stmt : GoStmt) :
    inferStep acc stmt = candFold acc (stmtDataCands stmt) := by
  cases stmt with
  | assign lhs rhs =>
    simp only [inferStep, stmtDataCands]
    exact foldl_entry_eq_candFold _ _ (inferAssignEntry_eq_candFold rhs) lhs.enum acc
  | varDecl names ty =>
    simp only [inferStep, stmtDataCands]
    exact foldl_entry_eq_candFold _ _ (inferVarDeclEntry_eq_candFold ty) names acc
  | exprStmt e => simp [inferStep, stmtDataCands, candFold, List.foldl]

theorem body_foldl_eq_candFold (body : List GoStmt) (acc : String × String) :
    body.foldl inferStep acc = candFold acc (dataCands body) :=
  foldl_entry_eq_candFold inferStep stmtDataCands
    (fun acc stmt => inferStep_eq_candFold acc stmt) body acc

theorem candFold_fst (cs : List (String × Bool)) :
    ∀ (a b : String), (candFold (a, b) cs).1 =
      match cs.reverse.find? (fun c => c.2) with
      | some c => c.1
      | none => a := by
  induction cs with
  | nil => intro a b; simp [candFold, List.foldl]
  | cons c cs ih =>
    intro a b
    simp only [candFold, List.foldl] at *
    rw [ih (if c.2 then c.1 else a) c.1]
    rw [List.reverse_cons, List.find?_append]
    cases hrev : cs.reverse.find? (fun c => c.2) with
    | some d => simp
    | none =>
      simp only [Option.none_or]
      cases hc : c.2 <;> simp [List.find?_cons, hc]

theorem candFold_snd (cs : List (String × Bool)) :
    ∀ (a b : String), (candFold (a, b) cs).2 =
      match cs.getLast? with
      | some c => c.1
      | none => b := by
  induction cs with
  | nil => intro a b; simp [candFold, List.foldl]
  | cons c cs ih =>
    intro a b
    simp only [candFold, List.foldl] at *
    rw [ih (if c.2 then c.1 else a) c.1]
    rw [← List.head?_reverse, ← List.head?_reverse,
        List.reverse_cons, List.head?_append]
    cases hrev : cs.reverse.head? with
    | some d => simp
    | none => simp

theorem assignEntryCands_names (rhs : List GoExpr) (il : Nat × GoExpr) :
    ∀ c ∈ assignEntryCands rhs il, c.1 ≠ "" := by
  obtain ⟨i, l⟩ := il
  intro c hc
  cases l with
  | ident nm =>
    simp only [assignEntryCands] at hc
    by_cases hnm : nm = "data"
    · rw [if_pos hnm] at hc
      split at hc
      · simp at hc
      · split at hc
        · rename_i r ht
          simp only [List.mem_singleton] at hc
          rw [hc]
          exact ht
        · simp at hc
    · rw [if_neg hnm] at hc
      simp at hc
  | selector x s => simp [assignEntryCands] at hc
  | star x => simp [assignEntryCands] at hc
  | unary x => simp [assignEntryCands] at hc
  | compositeLit t e => simp [assignEntryCands] at hc
  | call f a => simp [assignEntryCands] at hc
  | basicLit k v => simp [assignEntryCands] at hc
  | arrayType e => simp [assignEntryCands] at hc
  | mapType k v => simp [assignEntryCands] at hc
  | interfaceType => simp [assignEntryCands] at hc

theorem varDeclEntryCands_names (ty : Option GoExpr) (nm : String) :
    ∀ c ∈ varDeclEntryCands ty nm, c.1 ≠ "" := by
  intro c hc
  simp only [varDeclEntryCands] at hc
  by_cases hnm : nm = "data"
  · rw [if_pos hnm] at hc
    cases ty with
    | none => simp at hc
    | some t0 => split at hc <;> simp_all
  · rw [if_neg hnm] at hc
    simp at hc

theorem dataCands_nonempty_names (body : List GoStmt) :
    ∀ c ∈ dataCands body, c.1 ≠ "" := by
  intro c hc
  simp only [dataCands, List.mem_flatMap] at hc
  obtain ⟨stmt, _, hc⟩ := hc
  cases stmt with
  | assign lhs rhs =>
    simp only [stmtDataCands, List.mem_flatMap] at hc
    obtain ⟨il, _, hc⟩ := hc
    exact assignEntryCands_names rhs il c hc
  | varDecl names ty =>
    simp only [stmtDataCands, List.mem_flatMap] at hc
    obtain ⟨nm, _, hc⟩ := hc
    exact varDeclEntryCands_names ty nm c hc
  | exprStmt e => simp [stmtDataCands] at hc

/-- Service-layer file whose exported function assigns data twice, with two
different concrete types. -/
def c3ServiceFile : GoFileAst := ⟨[.funcDecl "GetLabels" [] [.ident "error"] (some c3Body)]⟩

/-- C3 counterexample: with two concrete `data` assignments (LabelA then
LabelB), the analyzer records LabelB — the LAST concrete candidate — while the
claim's first-concrete-wins rule predicts LabelA. -/
theorem c3_first_concrete_cex :
    (mapLookup (serviceAnalyzeFile [] "home" c3ServiceFile) "home.GetLabels").map
      ServiceFuncInfo.dataType = some "LabelB" ∧
    specFirstConcreteDataType c3Body = "LabelA" ∧
    inferDataTypeFromBody c3Body ≠ specFirstConcreteDataType c3Body := by
  refine ⟨rfl, rfl, ?_⟩
  decide

/-- C3 amended: the inferred data type of a service-function body is the LAST
concrete (non-generic-object) candidate bound to `data`, with the last
candidate of any kind kept only as a fallback when no concrete candidate
occurs anywhere in the body. -/
theorem c3_last_concrete_amended (body : List GoStmt) :
    inferDataTypeFromBody body = specLastConcreteDataType body := by
  have hfold := body_foldl_eq_candFold body ("", "")
  have h1 := candFold_fst (dataCands body) "" ""
  have h2 := candFold_snd (dataCands body) "" ""
  rcases hF : (dataCands body).reverse.find? (fun c => c.2) with _ | c
  · rw [hF] at h1
    rcases hH : (dataCands body).getLast? with _ | d
    · rw [hH] at h2
      simp only [inferDataTypeFromBody, specLastConcreteDataType, hfold, hF, hH, h1, h2]
      simp
    · rw [hH] at h2
      have hd : d ∈ dataCands body :=
        List.mem_reverse.mp (List.mem_of_mem_head?
          (by rw [List.head?_reverse, hH]; exact rfl))
      have hd1 : d.1 ≠ "" := dataCands_nonempty_names body d hd
      simp only [inferDataTypeFromBody, specLastConcreteDataType, hfold, hF, hH, h1, h2]
      simp [hd1]
  · rw [hF] at h1
    have hcmem : c ∈ dataCands body :=
      List.mem_reverse.mp (List.mem_of_find?_eq_some hF)
    have hc1 : c.1 ≠ "" := dataCands_nonempty_names body c hcmem
    simp only [inferDataTypeFromBody, specLastConcreteDataType, hfold, hF, h1, h2]
    simp [hc1]

/-- C2 counterexample: for `user := User\x7b\x7d; c.JSON(200, user)` the recorded
ResponseType is the identifier name "user", not the local type "User":
extractTypeFromExpr on a bare identifier returns the identifier's own name, so
the local-type fallback (guarded by the extraction being empty) never fires. -/
theorem c2_response_ident_name_cex :
    (mapLookup (analyzeHandlers c2File) "CreateUser").map HandlerInfo.responseType =
      some "user" ∧
    (mapLookup (analyzeHandlers c2File) "CreateUser").map HandlerInfo.responseType ≠
      some "User" :=
  ⟨rfl, by decide⟩

/-- C2 amended: the request half of the claim holds as stated — binding
`&req` with `var req CreateUserRequest` records RequestType "CreateUserRequest"
— while `c.JSON(200, user)` records the identifier name "user" itself (the
known local type is consulted only when direct extraction returns empty, which
cannot happen for a bare identifier). -/
theorem c2_request_response_linking_amended :
    (mapLookup (analyzeHandlers c2File) "CreateUser").map
      (fun h => (h.requestType, h.responseType)) =
      some ("CreateUserRequest", "user") := rfl

/-- C5: nested Group prefixes concatenate in order, :id becomes \x7bid\x7d, and
the assembled operation carries exactly one path parameter named id with
location path, required true and a string schema. -/
theorem c5_nested_group_path_building :
    (extractRoutesFromFunc c5Body).map
      (fun r => (r.method, r.path, r.handler, r.hasParam)) =
      [("GET", "/api/v1/products/\x7bid\x7d", "GetProduct", true)] ∧
    (extractRoutesFromFunc c5Body).map
      (fun r => (toOperation r).parameters.map
        (fun p => (p.name, p.inLoc, p.required, p.schema.type, p.schema.ref))) =
      [[("id", "path", true, "string", "")]] :=
  ⟨rfl, rfl⟩

/-- C9: a placeholder that occurs only in the resolved group prefix is
translated to \x7bid\x7d in the emitted path, yet HasParam is computed solely from
the verb call's own literal segment, so the operation carries no parameters. -/
theorem c9_group_prefix_param_flag :
    (extractRoutesFromFunc c9Body).map (fun r => (r.path, r.hasParam)) =
      [("/users/\x7bid\x7d/profile", false)] ∧
    (extractRoutesFromFunc c9Body).map (fun r => (toOperation r).parameters) = [[]] :=
  ⟨rfl, rfl⟩

/-- C7 counterexample: a handler whose response argument is a map literal
records ResponseType "map[string]interface\x7b\x7d", not the empty string. -/
theorem c7_map_literal_response_cex :
    (mapLookup (analyzeHandlers c7HandlerFile.ast) "GetStats").map
      HandlerInfo.responseType = some genericMapType ∧
    (mapLookup (analyzeHandlers c7HandlerFile.ast) "GetStats").map
      HandlerInfo.responseType ≠ some "" :=
  ⟨rfl, by decide⟩

/-- C7 amended: the map-literal response records
ResponseType "map[string]interface\x7b\x7d", and the assembled 200-response data
schema is an object schema with additionalProperties of type object and no
reference. -/
theorem c7_map_literal_response_amended :
    (mapLookup (analyzeHandlers c7HandlerFile.ast) "GetStats").map
      HandlerInfo.responseType = some genericMapType ∧
    (((mapLookup (ginAnalyze [c7HandlerFile, c7RouteFile]).paths "/stats").bind
        (fun pi => pi.get)).bind opSuccessDataSchema).map
      (fun s => (s.type, s.ref, (s.additionalProperties.map Schema.type).getD "-")) =
      some ("object", "", "object") :=
  ⟨rfl, rfl⟩

/-- C4 counterexample: when neither the inferred data type nor the declared
return type resolves, the route's response type is NOT left empty — it keeps
the handler's deferred marker string "data.service", and the 200-response data
schema becomes a dangling reference to it rather than a generic object. -/
theorem c4_deferred_marker_not_empty_cex :
    c4LinkedRoute.responseType = "data.service" ∧
    c4LinkedRoute.responseType ≠ "" ∧
    (((mapLookup c4Spec.paths "/labels").bind (fun pi => pi.get)).bind
        opSuccessDataSchema).map Schema.ref =
      some "#/components/schemas/data.service" :=
  ⟨rfl, by decide, rfl⟩

/-- C1 counterexample: with handler-layer `T \x7b A string \x7d` visited before
model-layer `T \x7b Next *T \x7d`, the model extraction inlines the already-stored
handler schema for the Next field, so the final schema differs between the two
visitation orders and differs from the model-layer extraction computed from a
fresh analyzer. -/
theorem c1_priority_order_dependence_cex :
    (mapLookup c1RunHandlerFirst.structs "T").map schemaPropSig =
      some [("next", "", "object")] ∧
    (mapLookup c1RunModelFirst.structs "T").map schemaPropSig =
      some [("next", "#/components/schemas/T", "")] ∧
    (mapLookup c1RunHandlerFirst.structs "T").map schemaPropSig ≠
      (mapLookup c1RunModelFirst.structs "T").map schemaPropSig ∧
    (mapLookup c1RunHandlerFirst.structs "T").map schemaPropSig ≠
      some (schemaPropSig c1CanonicalModelSchema) :=
  ⟨rfl, rfl, by decide, by decide⟩

/-- C8 counterexample: the embedded-field expansion is not independent of the
iteration order over the recorded pairs — expanding A before B misses the
property that B only receives from C afterwards. -/
theorem c8_expansion_order_dependence_cex :
    List.Perm [c8PairA, c8PairB] [c8PairB, c8PairA] ∧
    (mapLookup (expandAll [c8PairA, c8PairB] c8Structs) "A").map
      (fun s => (s.properties.map Prod.fst, s.required)) = some ([], []) ∧
    (mapLookup (expandAll [c8PairB, c8PairA] c8Structs) "A").map
      (fun s => (s.properties.map Prod.fst, s.required)) = some (["x"], ["x"]) ∧
    (mapLookup (expandAll [c8PairA, c8PairB] c8Structs) "A").map
      (fun s => (s.properties.map Prod.fst, s.required)) ≠
    (mapLookup (expandAll [c8PairB, c8PairA] c8Structs) "A").map
      (fun s => (s.properties.map Prod.fst, s.required)) :=
  ⟨List.Perm.swap c8PairB c8PairA [], rfl, rfl, by decide⟩

theorem withProperties_properties (s : Schema) (ps : List (String × Schema)) :
    (s.withProperties ps).properties = ps := by
  cases s; rfl

theorem withProperties_required (s : Schema) (ps : List (String × Schema)) :
    (s.withProperties ps).required = s.required := by
  cases s; rfl

theorem withRequired_properties (s : Schema) (rq : List String) :
    (s.withRequired rq).properties = s.properties := by
  cases s; rfl

theorem withRequired_required (s : Schema) (rq : List String) :
    (s.withRequired rq).required = rq := by
  cases s; rfl

/-- Lookup characterization of the property-copy loop of the expansion pass. -/
theorem mergeProps_lookup (es : List (String × Schema)) :
    ∀ (ps : List (String × Schema)) (p : String),
      mapLookup (es.foldl (fun ps pr =>
        match mapLookup ps pr.1 with
        | some _ => ps
        | none => mapInsert ps pr.1 pr.2) ps) p =
      (mapLookup ps p).or (mapLookup es p) := by
  induction es with
  | nil => intro ps p; cases h : mapLookup ps p <;> simp [mapLookup, List.foldl, h]
  | cons pr rest ih =>
    intro ps p
    obtain ⟨n, s⟩ := pr
    simp only [List.foldl]
    rw [ih]
    by_cases hp : n = p
    · subst hp
      cases h : mapLookup ps n with
      | some v => simp [h, mapLookup]
      | none => simp [h, mapLookup, mapLookup_insert_self]
    · cases h : mapLookup ps n with
      | some v => simp [h, mapLookup, hp]
      | none =>
        simp only [h]
        rw [mapLookup_insert_ne _ _ _ _ (fun hh => hp hh.symm)]
        simp [mapLookup, hp]

/-- The dedup-append step written with propositional membership. -/
theorem addUnique_eq (rs : List String) (r : String) :
    (if listHasStr rs r then rs else rs ++ [r]) = if r ∈ rs then rs else rs ++ [r] := by
  by_cases hr : r ∈ rs
  · rw [if_pos ((listHasStr_iff_mem rs r).mpr hr), if_pos hr]
  · rw [if_neg (fun hc => hr ((listHasStr_iff_mem rs r).mp hc)), if_neg hr]

/-- Membership characterization of the required-append loop of the expansion
pass. -/
theorem mergeReq_mem (es : List String) :
    ∀ (rs : List String) (x : String),
      x ∈ es.foldl (fun rs r => if listHasStr rs r then rs else rs ++ [r]) rs ↔
      x ∈ rs ∨ x ∈ es := by
  induction es with
  | nil => intro rs x; simp
  | cons r rest ih =>
    intro rs x
    simp only [List.foldl]
    rw [ih]
    by_cases hr : r ∈ rs
    · rw [if_pos ((listHasStr_iff_mem rs r).mpr hr)]
      simp only [List.mem_cons]
      constructor
      · rintro (h | h)
        · exact Or.inl h
        · exact Or.inr (Or.inr h)
      · rintro (h | h | h)
        · exact Or.inl h
        · exact Or.inl (h ▸ hr)
        · exact Or.inr h
    · rw [if_neg (fun hc => hr ((listHasStr_iff_mem rs r).mp hc))]
      simp only [List.mem_append, List.mem_singleton, List.mem_cons]
      tauto

theorem mergeEmbedded_properties (os es : Schema) (p : String) :
    mapLookup (mergeEmbedded os es).properties p =
      (mapLookup os.properties p).or (mapLookup es.properties p) := by
  simp only [mergeEmbedded, withRequired_properties, withProperties_properties]
  exact mergeProps_lookup es.properties os.properties p

theorem mergeEmbedded_required (os es : Schema) (x : String) :
    x ∈ (mergeEmbedded os es).required ↔ x ∈ os.required ∨ x ∈ es.required := by
  simp only [mergeEmbedded, withRequired_required]
  exact mergeReq_mem es.required os.required x

/-- C6: one expansion step copies each embedded property into the owner only
when the owner lacks it, and appends each embedded required name only when not
already present; in particular, A embedding B with required x ends up with
property x and x required (proved below on the extracted c6 file, where A also
keeps its own y). -/
theorem c6_embedded_expansion :
    (∀ (structs : List (String × Schema)) (owner emb : String) (os es : Schema),
       mapLookup structs owner = some os → mapLookup structs emb = some es →
       mapLookup (expandOneEmb structs owner emb) owner = some (mergeEmbedded os es) ∧
       (∀ p, mapLookup (mergeEmbedded os es).properties p =
             (mapLookup os.properties p).or (mapLookup es.properties p)) ∧
       (∀ x, x ∈ (mergeEmbedded os es).required ↔ x ∈ os.required ∨ x ∈ es.required)) ∧
    (mapLookup (expandAll c6Analyzer.embeddedFields c6Analyzer.structs) "A").map
      (fun s => ((mapLookup s.properties "x").map Schema.type,
                 listHasStr s.required "x",
                 (mapLookup s.properties "y").map Schema.type)) =
      some (some "string", true, some "integer") := by
  constructor
  · intro structs owner emb os es ho he
    refine ⟨?_, mergeEmbedded_properties os es, mergeEmbedded_required os es⟩
    simp only [expandOneEmb, ho, he]
    exact mapLookup_insert_self _ _ _
  · rfl

/-- Demo map for the C6 witness: an owner with its own required y, and an
embedded schema with required x. -/
def c6MapDemo : List (String × Schema) :=
  [("Owner", Schema.mk "object" "" "" "" [("y", typeOnlySchema "integer")] ["y"] none none),
   ("Emb", Schema.mk "object" "" "" "" [("x", typeOnlySchema "string")] ["x"] none none)]

theorem c6_embedded_expansion_witness :
    mapLookup (expandOneEmb c6MapDemo "Owner" "Emb") "Owner" =
      some (mergeEmbedded
        (Schema.mk "object" "" "" "" [("y", typeOnlySchema "integer")] ["y"] none none)
        (Schema.mk "object" "" "" "" [("x", typeOnlySchema "string")] ["x"] none none)) :=
  (c6_embedded_expansion.1 c6MapDemo "Owner" "Emb" _ _ rfl rfl).1

theorem addPath_components (s : OpenapiSpec) (p m : String) (op : Operation) :
    (addPath s p m op).componentsSchemas = s.componentsSchemas := rfl

theorem routesFold_components (hm : List (String × HandlerInfo))
    (sf : List (String × ServiceFuncInfo)) :
    ∀ (routes : List RouteInfo) (spec : OpenapiSpec),
      ((routes.foldl (fun sp route =>
          let r := linkRoute hm sf route
          addPath sp r.path r.method (toOperation r)) spec).componentsSchemas) =
      spec.componentsSchemas := by
  intro routes
  induction routes with
  | nil => intro spec; rfl
  | cons r rest ih =>
    intro spec
    simp only [List.foldl]
    rw [ih, addPath_components]

theorem pass2File_components (hm : List (String × HandlerInfo))
    (sf : List (String × ServiceFuncInfo)) (spec : OpenapiSpec) (f : GoSrcFile) :
    (pass2File hm sf spec f).componentsSchemas = spec.componentsSchemas := by
  unfold pass2File
  by_cases hs : shouldSkipFile f.path
  · rw [if_pos hs]
  · rw [if_neg hs]
    exact routesFold_components hm sf (extractGinRoutes f.ast) spec

theorem pass2Fold_components (hm : List (String × HandlerInfo))
    (sf : List (String × ServiceFuncInfo)) :
    ∀ (files : List GoSrcFile) (spec : OpenapiSpec),
      ((files.foldl (pass2File hm sf) spec).componentsSchemas) = spec.componentsSchemas := by
  intro files
  induction files with
  | nil => intro spec; rfl
  | cons f rest ih =>
    intro spec
    simp only [List.foldl]
    rw [ih, pass2File_components]

/-- C10: every Document produced by the analysis contains the fixed
ApiResponse envelope schema — inserted after all extracted struct schemas, so
it overwrites any struct of that name regardless of the file list and of any
layer priority recorded for it. -/
theorem c10_api_response_envelope (files : List GoSrcFile) :
    mapLookup (ginAnalyze files).componentsSchemas "ApiResponse" =
      some apiResponseSchema := by
  unfold ginAnalyze
  rw [pass2Fold_components]
  exact mapLookup_insert_self _ _ _

/-- C4 amended: for a route whose handler recorded exactly one service call,
bound to the conventional variable "data", and whose service function is
known, the linked response type is the inferred data type unless it is empty
or the generic map, otherwise the declared return type unless it is empty or
interface\x7b\x7d, and otherwise the route KEEPS the handler's recorded response
type (for a deferred call this is the marker string, not the empty string). -/
theorem c4_deferred_resolution_amended
    (hm : List (String × HandlerInfo)) (sf : List (String × ServiceFuncInfo))
    (route : RouteInfo) (hi : HandlerInfo) (p f : String) (si : ServiceFuncInfo)
    (hhi : mapLookup hm route.handler = some hi)
    (hcalls : hi.serviceCalls = [⟨p, f, "data"⟩])
    (hsi : mapLookup sf (p ++ "." ++ f) = some si) :
    (linkRoute hm sf route).responseType =
      if si.dataType ≠ "" ∧ si.dataType ≠ genericMapType then si.dataType
      else if si.returnType ≠ "" ∧ si.returnType ≠ "interface\x7b\x7d" then si.returnType
      else hi.responseType := by
  have hinfer : inferResponseTypeFromServiceCalls hi.serviceCalls sf =
      (if si.dataType ≠ "" ∧ si.dataType ≠ genericMapType then si.dataType
       else if si.returnType ≠ "" ∧ si.returnType ≠ "interface\x7b\x7d" then si.returnType
       else "") := by
    rw [hcalls]
    unfold inferResponseTypeFromServiceCalls
    simp only [hsi]
    have hvar : ¬ (({ pkg := p, fn := f, varName := "data" } : ServiceCall).varName ≠ "data") := by
      simp
    rw [if_neg hvar]
    by_cases hdt : si.dataType ≠ "" ∧ si.dataType ≠ genericMapType
    · rw [if_pos hdt, if_pos hdt]
    · rw [if_neg hdt, if_neg hdt]
      by_cases hrt : si.returnType ≠ "" ∧ si.returnType ≠ "interface\x7b\x7d"
      · rw [if_pos hrt, if_pos hrt]
      · rw [if_neg hrt, if_neg hrt]
        unfold inferResponseTypeFromServiceCalls
        rfl
  unfold linkRoute
  rw [hhi]
  simp only [hinfer]
  by_cases hdt : si.dataType ≠ "" ∧ si.dataType ≠ genericMapType
  · rw [if_pos hdt, if_pos hdt, if_pos hdt.1]
  · rw [if_neg hdt, if_neg hdt]
    by_cases hrt : si.returnType ≠ "" ∧ si.returnType ≠ "interface\x7b\x7d"
    · rw [if_pos hrt, if_pos hrt, if_pos hrt.1]
    · rw [if_neg hrt, if_neg hrt]
      rw [if_neg (by simp)]

/-- Concrete inputs for the C4 witness: a handler with one deferred service
call bound to "data", and a service function with a usable concrete type. -/
def c4wHandler : HandlerInfo :=
  ⟨"GetThings", "", "data.service", [], [], [⟨"things", "ListThings", "data"⟩]⟩

def c4wFuncs : List (String × ServiceFuncInfo) :=
  [("things.ListThings", ⟨"things", "ListThings", "[]Thing", "Thing"⟩)]

def c4wRoute : RouteInfo := ⟨"GET", "/things", "GetThings", false, false, "", "", ""⟩

theorem c4_deferred_resolution_amended_witness :
    (linkRoute [("GetThings", c4wHandler)] c4wFuncs c4wRoute).responseType =
      if ("Thing" : String) ≠ "" ∧ ("Thing" : String) ≠ genericMapType then "Thing"
      else if ("[]Thing" : String) ≠ "" ∧ ("[]Thing" : String) ≠ "interface\x7b\x7d" then "[]Thing"
      else "data.service" :=
  c4_deferred_resolution_amended [("GetThings", c4wHandler)] c4wFuncs c4wRoute
    c4wHandler "things" "ListThings" ⟨"things", "ListThings", "[]Thing", "Thing"⟩
    rfl rfl rfl

/-- Stored schema after one TypeSpec step, as a function of the priorities. -/
theorem processTypeSpec_structs_lookup (sa : StructAnalyzer) (pkg name : String)
    (fields : List GoField) :
    mapLookup (processTypeSpec sa pkg name fields).structs name =
      (match mapLookup sa.structPriority name with
       | none => some (extractStructSchemaWithName sa.structs sa.embeddedFields name fields).1
       | some ep =>
           if calculatePriority pkg ≥ ep then
             some (extractStructSchemaWithName sa.structs sa.embeddedFields name fields).1
           else mapLookup sa.structs name) := by
  unfold processTypeSpec
  cases hp : mapLookup sa.structPriority name with
  | none => simp only [hp, mapLookup_insert_self]
  | some ep =>
    simp only [hp]
    by_cases hge : calculatePriority pkg ≥ ep
    · rw [if_pos hge, if_pos hge]
      exact mapLookup_insert_self _ _ _
    · rw [if_neg hge, if_neg hge]

/-- C1 amended. Part 1: a later extraction of an already-stored type name is
stored only when its source-layer priority is ≥ the stored entry's priority;
otherwise the stored schema is untouched. Part 2: if a handler-layer file
(priority 10) and a model-layer file (priority 100) both declare T, and the
model-layer extraction does not depend on the analyzer state (which fails only
when T's model-layer fields mention an already-stored type name, see the
counterexample), then both visitation orders store the model-layer
extraction. -/
theorem c1_priority_overwrite_amended :
    (∀ (sa : StructAnalyzer) (pkg name : String) (fields : List GoField),
       mapLookup (processTypeSpec sa pkg name fields).structs name =
         (match mapLookup sa.structPriority name with
          | none => some (extractStructSchemaWithName sa.structs sa.embeddedFields name fields).1
          | some ep =>
              if calculatePriority pkg ≥ ep then
                some (extractStructSchemaWithName sa.structs sa.embeddedFields name fields).1
              else mapLookup sa.structs name)) ∧
    (∀ (p1 p2 T : String) (f1 f2 : List GoField),
       calculatePriority p1 = 10 → calculatePriority p2 = 100 →
       (extractStructSchemaWithName
          (analyzeFileWithPackage newStructAnalyzer p1 ⟨[.typeDecl T f1]⟩).structs
          (analyzeFileWithPackage newStructAnalyzer p1 ⟨[.typeDecl T f1]⟩).embeddedFields
          T f2).1 = (extractStructSchemaWithName [] [] T f2).1 →
       mapLookup (analyzeFileWithPackage
           (analyzeFileWithPackage newStructAnalyzer p1 ⟨[.typeDecl T f1]⟩)
           p2 ⟨[.typeDecl T f2]⟩).structs T =
         some (extractStructSchemaWithName [] [] T f2).1 ∧
       mapLookup (analyzeFileWithPackage
           (analyzeFileWithPackage newStructAnalyzer p2 ⟨[.typeDecl T f2]⟩)
           p1 ⟨[.typeDecl T f1]⟩).structs T =
         some (extractStructSchemaWithName [] [] T f2).1) := by
  constructor
  · exact processTypeSpec_structs_lookup
  · intro p1 p2 T f1 f2 hp1 hp2 hstable
    have hfile : ∀ (sa : StructAnalyzer) (p : String) (fs : List GoField),
        analyzeFileWithPackage sa p ⟨[.typeDecl T fs]⟩ = processTypeSpec sa p T fs := by
      intro sa p fs; rfl
    have hprio1 : mapLookup (processTypeSpec newStructAnalyzer p1 T f1).structPriority T =
        some (calculatePriority p1) :=
      mapLookup_insert_self [] T (calculatePriority p1)
    have hprio2 : mapLookup (processTypeSpec newStructAnalyzer p2 T f2).structPriority T =
        some (calculatePriority p2) :=
      mapLookup_insert_self [] T (calculatePriority p2)
    constructor
    · rw [hfile, hfile, processTypeSpec_structs_lookup]
      simp only [hprio1, hp1, hp2]
      rw [if_pos (by norm_num : (100 : Nat) ≥ 10)]
      rw [← hfile]
      rw [hstable]
    · rw [hfile, hfile, processTypeSpec_structs_lookup]
      simp only [hprio2, hp1, hp2]
      rw [if_neg (by norm_num : ¬ (10 : Nat) ≥ 100)]
      rw [processTypeSpec_structs_lookup]
      simp only [newStructAnalyzer, mapLookup]

/-- Concrete fields for the C1 witness: the model-layer declaration uses only
a primitive field type, so its extraction is state-independent. -/
def c1wHandlerFields : List GoField := [plainField "A" (.ident "string")]
def c1wModelFields : List GoField := [plainField "Name" (.ident "string")]

set_option maxHeartbeats 2000000 in
theorem c1_priority_overwrite_amended_witness :
    mapLookup (analyzeFileWithPackage
        (analyzeFileWithPackage newStructAnalyzer "controller" ⟨[.typeDecl "T" c1wHandlerFields]⟩)
        "model" ⟨[.typeDecl "T" c1wModelFields]⟩).structs "T" =
      some (extractStructSchemaWithName [] [] "T" c1wModelFields).1 ∧
    mapLookup (analyzeFileWithPackage
        (analyzeFileWithPackage newStructAnalyzer "model" ⟨[.typeDecl "T" c1wModelFields]⟩)
        "controller" ⟨[.typeDecl "T" c1wHandlerFields]⟩).structs "T" =
      some (extractStructSchemaWithName [] [] "T" c1wModelFields).1 :=
  c1_priority_overwrite_amended.2 "controller" "model" "T" c1wHandlerFields c1wModelFields
    rfl rfl rfl

theorem expandOneEmb_none_emb (m : List (String × Schema)) (o e : String)
    (h : mapLookup m e = none) : expandOneEmb m o e = m := by
  unfold expandOneEmb
  rw [h]

theorem expandOneEmb_none_owner (m : List (String × Schema)) (o e : String)
    (h : mapLookup m o = none) : expandOneEmb m o e = m := by
  unfold expandOneEmb
  rw [h]
  cases mapLookup m e <;> rfl

theorem expandOneEmb_some (m : List (String × Schema)) (o e : String)
    (es os : Schema) (he : mapLookup m e = some es) (ho : mapLookup m o = some os) :
    expandOneEmb m o e = mapInsert m o (mergeEmbedded os es) := by
  unfold expandOneEmb
  rw [he, ho]

theorem mapInsert_comm {α : Type} (m : List (String × α)) (k1 k2 : String) (v1 v2 : α)
    (hne : k1 ≠ k2) (hmem : (mapLookup m k1).isSome) :
    mapInsert (mapInsert m k1 v1) k2 v2 = mapInsert (mapInsert m k2 v2) k1 v1 := by
  induction m with
  | nil => simp [mapLookup] at hmem
  | cons hd tl ih =>
    obtain ⟨k, v⟩ := hd
    by_cases h1 : k = k1
    · subst h1
      simp only [mapInsert, if_pos rfl, if_neg hne]
      simp [mapInsert]
    · by_cases h2 : k = k2
      · subst h2
        simp only [mapInsert, if_neg h1, if_pos rfl]
        simp [mapInsert, h1]
      · simp only [mapInsert, if_neg h1, if_neg h2]
        simp only [mapLookup, if_neg h1] at hmem
        rw [ih hmem]

theorem lookup_expandOneEmb_ne (m : List (String × Schema)) (o e k : String)
    (h : k ≠ o) : mapLookup (expandOneEmb m o e) k = mapLookup m k := by
  unfold expandOneEmb
  cases he : mapLookup m e with
  | none => rfl
  | some es =>
    cases ho : mapLookup m o with
    | none => rfl
    | some os => exact mapLookup_insert_ne m o k _ h

/-- Two expansion steps with different owners commute when neither owner is
the other step's embedded source. -/
theorem expandOneEmb_comm (m : List (String × Schema)) (o1 e1 o2 e2 : String)
    (h12 : o1 ≠ o2) (h1e2 : o1 ≠ e2) (h2e1 : o2 ≠ e1) :
    expandOneEmb (expandOneEmb m o1 e1) o2 e2 =
      expandOneEmb (expandOneEmb m o2 e2) o1 e1 := by
  rcases he1 : mapLookup m e1 with _ | es1
  · rw [expandOneEmb_none_emb m o1 e1 he1]
    rw [expandOneEmb_none_emb _ o1 e1
        (by rw [lookup_expandOneEmb_ne m o2 e2 e1 (Ne.symm h2e1)]; exact he1)]
  · rcases ho1 : mapLookup m o1 with _ | os1
    · rw [expandOneEmb_none_owner m o1 e1 ho1]
      rw [expandOneEmb_none_owner _ o1 e1
          (by rw [lookup_expandOneEmb_ne m o2 e2 o1 h12]; exact ho1)]
    · rcases he2 : mapLookup m e2 with _ | es2
      · rw [expandOneEmb_none_emb m o2 e2 he2]
        rw [expandOneEmb_none_emb _ o2 e2
            (by rw [lookup_expandOneEmb_ne m o1 e1 e2 (Ne.symm h1e2)]; exact he2)]
      · rcases ho2 : mapLookup m o2 with _ | os2
        · rw [expandOneEmb_none_owner m o2 e2 ho2]
          rw [expandOneEmb_none_owner _ o2 e2
              (by rw [lookup_expandOneEmb_ne m o1 e1 o2 (Ne.symm h12)]; exact ho2)]
        · rw [expandOneEmb_some m o1 e1 es1 os1 he1 ho1,
              expandOneEmb_some m o2 e2 es2 os2 he2 ho2]
          rw [expandOneEmb_some _ o2 e2 es2 os2
              (by rw [mapLookup_insert_ne m o1 e2 _ (Ne.symm h1e2)]; exact he2)
              (by rw [mapLookup_insert_ne m o1 o2 _ (Ne.symm h12)]; exact ho2)]
          rw [expandOneEmb_some _ o1 e1 es1 os1
              (by rw [mapLookup_insert_ne m o2 e1 _ (Ne.symm h2e1)]; exact he1)
              (by rw [mapLookup_insert_ne m o2 o1 _ h12]; exact ho1)]
          exact mapInsert_comm m o1 o2 _ _ h12 (by rw [ho1]; rfl)

/-- Lookup preservation through an owner's whole embedded-list fold. -/
theorem lookup_foldlEmb_ne (o : String) :
    ∀ (embs : List String) (m : List (String × Schema)) (k : String), k ≠ o →
      mapLookup (embs.foldl (fun m e => expandOneEmb m o e) m) k = mapLookup m k := by
  intro embs
  induction embs with
  | nil => intro m k hk; rfl
  | cons e rest ih =>
    intro m k hk
    simp only [List.foldl]
    rw [ih (expandOneEmb m o e) k hk, lookup_expandOneEmb_ne m o e k hk]

/-- A single step with owner o1 moves through a whole fold with owner o2. -/
theorem foldlEmb_step_comm (o1 e1 o2 : String) (h12 : o1 ≠ o2) (h2e1 : o2 ≠ e1) :
    ∀ (embs2 : List String) (m : List (String × Schema)), o1 ∉ embs2 →
      embs2.foldl (fun m e => expandOneEmb m o2 e) (expandOneEmb m o1 e1) =
        expandOneEmb (embs2.foldl (fun m e => expandOneEmb m o2 e) m) o1 e1 := by
  intro embs2
  induction embs2 with
  | nil => intro m _; rfl
  | cons b rest ih =>
    intro m hnot
    simp only [List.foldl]
    rw [expandOneEmb_comm m o1 e1 o2 b h12 (fun hh => hnot (hh ▸ List.mem_cons_self b rest)) h2e1]
    exact ih (expandOneEmb m o2 b) (fun hh => hnot (List.mem_cons_of_mem b hh))

/-- Interchange of two owners' embedded-list folds. -/
theorem foldl_foldl_comm (o1 o2 : String) (embs2 : List String)
    (h12 : o1 ≠ o2) (h1 : o1 ∉ embs2) :
    ∀ (embs1 : List String) (m : List (String × Schema)), o2 ∉ embs1 →
      embs2.foldl (fun m e => expandOneEmb m o2 e)
        (embs1.foldl (fun m e => expandOneEmb m o1 e) m) =
      embs1.foldl (fun m e => expandOneEmb m o1 e)
        (embs2.foldl (fun m e => expandOneEmb m o2 e) m) := by
  intro embs1
  induction embs1 with
  | nil => intro m _; rfl
  | cons a rest ih =>
    intro m h2
    simp only [List.foldl]
    rw [ih (expandOneEmb m o1 a) (fun hh => h2 (List.mem_cons_of_mem a hh))]
    rw [foldlEmb_step_comm o1 a o2 h12
        (fun hh => h2 (hh ▸ List.mem_cons_self a rest)) embs2 m h1]

theorem expandOwner_of_none (m : List (String × Schema)) (o : String) (embs : List String)
    (h : mapLookup m o = none) : expandOwner m o embs = m := by
  unfold expandOwner; rw [h]

theorem expandOwner_of_some (m : List (String × Schema)) (o : String) (embs : List String)
    (os : Schema) (h : mapLookup m o = some os) :
    expandOwner m o embs = embs.foldl (fun m e => expandOneEmb m o e) m := by
  unfold expandOwner; rw [h]

/-- Two whole-owner expansions commute when the owners differ and neither owner
appears in the other's embedded list. -/
theorem expandOwner_comm (m : List (String × Schema)) (o1 o2 : String)
    (embs1 embs2 : List String) (h12 : o1 ≠ o2) (h1 : o1 ∉ embs2) (h2 : o2 ∉ embs1) :
    expandOwner (expandOwner m o1 embs1) o2 embs2 =
      expandOwner (expandOwner m o2 embs2) o1 embs1 := by
  rcases ho1 : mapLookup m o1 with _ | os1
  · rw [expandOwner_of_none m o1 embs1 ho1]
    have hpres : mapLookup (expandOwner m o2 embs2) o1 = none := by
      rcases ho2 : mapLookup m o2 with _ | os2
      · rw [expandOwner_of_none m o2 embs2 ho2]; exact ho1
      · rw [expandOwner_of_some m o2 embs2 os2 ho2,
            lookup_foldlEmb_ne o2 embs2 m o1 h12]
        exact ho1
    rw [expandOwner_of_none _ o1 embs1 hpres]
  · rcases ho2 : mapLookup m o2 with _ | os2
    · rw [expandOwner_of_none m o2 embs2 ho2]
      have hpres : mapLookup (expandOwner m o1 embs1) o2 = none := by
        rw [expandOwner_of_some m o1 embs1 os1 ho1,
            lookup_foldlEmb_ne o1 embs1 m o2 (Ne.symm h12)]
        exact ho2
      rw [expandOwner_of_none _ o2 embs2 hpres]
    · have hlook2 : mapLookup (expandOwner m o1 embs1) o2 = some os2 := by
        rw [expandOwner_of_some m o1 embs1 os1 ho1,
            lookup_foldlEmb_ne o1 embs1 m o2 (Ne.symm h12)]
        exact ho2
      have hlook1 : mapLookup (expandOwner m o2 embs2) o1 = some os1 := by
        rw [expandOwner_of_some m o2 embs2 os2 ho2,
            lookup_foldlEmb_ne o2 embs2 m o1 h12]
        exact ho1
      rw [expandOwner_of_some _ o2 embs2 os2 hlook2,
          expandOwner_of_some m o1 embs1 os1 ho1]
      rw [expandOwner_of_some _ o1 embs1 os1 hlook1,
          expandOwner_of_some m o2 embs2 os2 ho2]
      exact foldl_foldl_comm o1 o2 embs2 h12 h1 embs1 m h2

/-- Independence of two recorded (owner, embedded list) pairs: distinct owners,
neither of which is an embedded source of the other pair. -/
def pairIndep (p q : String × List String) : Prop :=
  p.1 ≠ q.1 ∧ p.1 ∉ q.2 ∧ q.1 ∉ p.2

theorem pairIndep_symm : ∀ {p q : String × List String}, pairIndep p q → pairIndep q p :=
  fun h => ⟨Ne.symm h.1, h.2.2, h.2.1⟩

/-- C8 amended: the embedded-field expansion is independent of the map
iteration order over the recorded pairs whenever the pairs are pairwise
independent (no owner occurs among another pair's embedded types — i.e. no
transitive embedding chain); the counterexample shows the unconditional claim
fails on exactly such a chain. -/
theorem c8_expansion_perm_of_independent :
    ∀ {l1 l2 : List (String × List String)}, l1.Perm l2 →
      ∀ (m : List (String × Schema)), l1.Pairwise pairIndep →
        expandAll l1 m = expandAll l2 m := by
  intro l1 l2 hperm
  induction hperm with
  | nil => intro m _; rfl
  | cons x hp ih =>
    intro m hpw
    exact ih (expandOwner m x.1 x.2) (List.Pairwise.of_cons hpw)
  | swap x y l =>
    intro m hpw
    have hyx : pairIndep y x := (List.pairwise_cons.mp hpw).1 x (List.mem_cons_self x l)
    show expandAll l (expandOwner (expandOwner m y.1 y.2) x.1 x.2) =
      expandAll l (expandOwner (expandOwner m x.1 x.2) y.1 y.2)
    rw [expandOwner_comm m y.1 x.1 y.2 x.2 hyx.1 hyx.2.1 hyx.2.2]
  | trans h1 h2 ih1 ih2 =>
    intro m hpw
    rw [ih1 m hpw]
    exact ih2 m ((h1.pairwise_iff pairIndep_symm).mp hpw)

theorem c8_expansion_perm_of_independent_witness :
    expandAll [("A", ["C"]), ("B", ["C"])] c8Structs =
      expandAll [("B", ["C"]), ("A", ["C"])] c8Structs :=
  c8_expansion_perm_of_independent (List.Perm.swap ("B", ["C"]) ("A", ["C"]) []) c8Structs
    (by
      refine List.pairwise_cons.mpr ⟨?_, List.pairwise_singleton _ _⟩
      intro q hq
      simp only [List.mem_singleton] at hq
      subst hq
      exact ⟨by decide, by decide, by decide⟩)
